import Mathlib

/-!
Verification of the compliance-report normalization pipeline of this
repository (PDF compliance analyzer).  The Python source in `app.py` is
shallowly embedded: Python dicts coming from `json.loads` become
association lists with unique keys, Python numbers (int and float alike)
become exact rationals, fallible code returns `Except`/`Option`.
-/

namespace Copilot

/-- The loosely typed JSON tree produced by `json.loads`. -/
inductive Json where
  | null
  | bool (b : Bool)
  | num (q : ℚ)
  | str (s : String)
  | arr (items : List Json)
  | obj (fields : List (String × Json))
  deriving Repr, Inhabited

/-- Lookup in a Python dict (keys are unique by construction). -/
def dictGet (kvs : List (String × Json)) (k : String) : Option Json :=
  (kvs.find? (fun p => p.1 = k)).map (·.2)

/-- Python `k in d`. -/
def dictHas (kvs : List (String × Json)) (k : String) : Bool :=
  (kvs.find? (fun p => p.1 = k)).isSome

/-- Python `d[k] = v`: replace in place if the key exists, else append.
Used both by the dict mutations in the source and by the JSON parser to
collapse duplicate keys the way `json.loads` does (last value wins,
original position kept). -/
def dictSet (kvs : List (String × Json)) (k : String) (v : Json) :
    List (String × Json) :=
  if dictHas kvs k then
    kvs.map (fun p => if p.1 = k then (k, v) else p)
  else kvs ++ [(k, v)]

/-! ### Character classes -/

/-- JSON whitespace (also the `\s` class of the repair regex, ASCII part). -/
def isWs (c : Char) : Bool :=
  c = ' ' || c = '\t' || c = '\n' || c = '\x0d' || c = '\x0c' || c = '\x0b'

def isDigit (c : Char) : Bool := '0' ≤ c && c ≤ '9'

def isAlpha (c : Char) : Bool :=
  ('a' ≤ c && c ≤ 'z') || ('A' ≤ c && c ≤ 'Z')

def digitVal (c : Char) : ℕ := c.toNat - '0'.toNat

/-! ### A strict JSON parser, modelling `json.loads`.

Fuel-indexed recursive descent.  It follows the JSON grammar accepted by
the Python standard library: in particular a trailing comma before `}` or
`]` is a parse error, which is exactly what the trailing-comma repair in
`force_parse_json` exists to fix. -/

/-- Python `str.strip()` on the character list (ASCII whitespace). -/
def stripWsEnds (cs : List Char) : List Char :=
  ((cs.dropWhile isWs).reverse.dropWhile isWs).reverse

def skipWs : List Char → List Char
  | [] => []
  | c :: cs => if isWs c then skipWs cs else c :: cs

/-- Parse the digits of a natural number literal, returning value and rest. -/
def parseDigits : List Char → ℕ → ℕ × List Char
  | [], acc => (acc, [])
  | c :: cs, acc =>
    if isDigit c then parseDigits cs (acc * 10 + digitVal c) else (acc, c :: cs)

/-! ### Reducible rational arithmetic

The standard `+ - * / ^` on `ℚ` are `@[irreducible]` in this toolchain,
which would block kernel evaluation of the pipeline on concrete inputs.
All rational arithmetic of the embedding therefore goes through explicit
fraction arithmetic (`mkRat` / `Rat.divInt` on numerators and
denominators), proved equal to the standard operations below. -/

def qadd (a b : ℚ) : ℚ := mkRat (a.num * b.den + b.num * a.den) (a.den * b.den)

def qneg (a : ℚ) : ℚ := mkRat (-a.num) a.den

def qmul (a b : ℚ) : ℚ := mkRat (a.num * b.num) (a.den * b.den)

def qdiv (a b : ℚ) : ℚ := Rat.divInt (a.num * b.den) (a.den * b.num)

def qsum (l : List ℚ) : ℚ := l.foldr qadd 0

/-- Build the decimal value `±(ip.frac) * 10^ex` as an exact rational. -/
def mkDec (neg : Bool) (ip fracNum fracLen : ℕ) (ex : ℤ) : ℚ :=
  let m : ℤ := (ip * 10 ^ fracLen + fracNum : ℕ)
  let m : ℤ := if neg then -m else m
  if 0 ≤ ex then mkRat (m * ((10 ^ ex.toNat : ℕ) : ℤ)) (10 ^ fracLen)
  else mkRat m (10 ^ fracLen * 10 ^ (-ex).toNat)

def hexVal (c : Char) : Option ℕ :=
  if isDigit c then
    some (digitVal c)
  else
    let n := c.toNat
    if 97 ≤ n && n ≤ 102 then some (n - 87)
    else if 65 ≤ n && n ≤ 70 then some (n - 55)
    else none

/-- Parse the body of a JSON string literal after the opening quote. -/
def parseStringBody : ℕ → List Char → List Char → Option (String × List Char)
  | 0, _, _ => none
  | _ + 1, _, [] => none
  | fuel + 1, acc, c :: cs =>
    if c = '"' then some (String.mk acc.reverse, cs)
    else if c = '\\' then
      match cs with
      | [] => none
      | e :: cs2 =>
        if e = '"' then parseStringBody fuel ('"' :: acc) cs2
        else if e = '\\' then parseStringBody fuel ('\\' :: acc) cs2
        else if e = '/' then parseStringBody fuel ('/' :: acc) cs2
        else if e = 'b' then parseStringBody fuel ('\x08' :: acc) cs2
        else if e = 'f' then parseStringBody fuel ('\x0c' :: acc) cs2
        else if e = 'n' then parseStringBody fuel ('\n' :: acc) cs2
        else if e = 'r' then parseStringBody fuel ('\x0d' :: acc) cs2
        else if e = 't' then parseStringBody fuel ('\t' :: acc) cs2
        else if e = 'u' then
          match cs2 with
          | h1 :: h2 :: h3 :: h4 :: cs3 =>
            match hexVal h1, hexVal h2, hexVal h3, hexVal h4 with
            | some a, some b, some c3, some d =>
              parseStringBody fuel
                (Char.ofNat (((a * 16 + b) * 16 + c3) * 16 + d) :: acc) cs3
            | _, _, _, _ => none
          | _ => none
        else none
    else if c.toNat < 32 then none
    else parseStringBody fuel (c :: acc) cs

/-- Parse a JSON number literal (sign, integer part without leading zeros,
optional fraction, optional exponent) into an exact rational. -/
def parseNumber (cs : List Char) : Option (ℚ × List Char) :=
  let (neg, cs1) :=
    match cs with
    | '-' :: rest => (true, rest)
    | _ => (false, cs)
  match cs1 with
  | [] => none
  | c :: _ =>
    if ¬ isDigit c then none
    else if c == '0' && (match cs1 with
        | _ :: d :: _ => isDigit d
        | _ => false) then none
    else
      let (ip, cs2) := parseDigits cs1 0
      let (fracNum, fracLen, cs3) :=
        match cs2 with
        | '.' :: d :: rest =>
          if isDigit d then
            let (fv, r) := parseDigits (d :: rest) 0
            (fv, (d :: rest).length - r.length, r)
          else (0, 0, cs2)
        | _ => (0, 0, cs2)
      if (match cs2 with
          | '.' :: d :: _ => ! isDigit d
          | ['.'] => true
          | _ => false) then none
      else
        let (expOk, expVal, cs4) :=
          match cs3 with
          | e :: rest =>
            if e = 'e' ∨ e = 'E' then
              let (esign, rest2) :=
                match rest with
                | '+' :: r => ((1 : ℤ), r)
                | '-' :: r => ((-1 : ℤ), r)
                | _ => ((1 : ℤ), rest)
              match rest2 with
              | d :: _ =>
                if isDigit d then
                  let (ev, r) := parseDigits rest2 0
                  (true, esign * (ev : ℤ), r)
                else (false, (0 : ℤ), cs3)
              | [] => (false, (0 : ℤ), cs3)
            else (true, (0 : ℤ), cs3)
          | [] => (true, (0 : ℤ), cs3)
        if ¬ expOk then none
        else some (mkDec neg ip fracNum fracLen expVal, cs4)

mutual

/-- Parse one JSON value. -/
def parseVal : ℕ → List Char → Option (Json × List Char)
  | 0, _ => none
  | fuel + 1, cs =>
    match skipWs cs with
    | [] => none
    | c :: rest =>
      if c = '{' then parseObjFields fuel rest []
      else if c = '[' then parseArrItems fuel rest []
      else if c = '"' then
        (parseStringBody (rest.length + 1) [] rest).map
          (fun p => (Json.str p.1, p.2))
      else if c = 't' then
        match rest with
        | 'r' :: 'u' :: 'e' :: r => some (Json.bool true, r)
        | _ => none
      else if c = 'f' then
        match rest with
        | 'a' :: 'l' :: 's' :: 'e' :: r => some (Json.bool false, r)
        | _ => none
      else if c = 'n' then
        match rest with
        | 'u' :: 'l' :: 'l' :: r => some (Json.null, r)
        | _ => none
      else
        (parseNumber (c :: rest)).map (fun p => (Json.num p.1, p.2))

/-- Parse object members after `{` (accumulator holds fields so far). -/
def parseObjFields : ℕ → List Char → List (String × Json) →
    Option (Json × List Char)
  | 0, _, _ => none
  | fuel + 1, cs, acc =>
    match skipWs cs with
    | [] => none
    | c :: rest =>
      if c == '}' && acc.isEmpty then some (Json.obj [], rest)
      else
        match skipWs cs with
        | '"' :: rest2 =>
          match parseStringBody (rest2.length + 1) [] rest2 with
          | none => none
          | some (k, rest3) =>
            match skipWs rest3 with
            | ':' :: rest4 =>
              match parseVal fuel rest4 with
              | none => none
              | some (v, rest5) =>
                let acc2 := dictSet acc k v
                match skipWs rest5 with
                | ',' :: rest6 => parseObjFields fuel rest6 acc2
                | '}' :: rest6 => some (Json.obj acc2, rest6)
                | _ => none
            | _ => none
        | _ => none

/-- Parse array items after `[`. -/
def parseArrItems : ℕ → List Char → List Json → Option (Json × List Char)
  | 0, _, _ => none
  | fuel + 1, cs, acc =>
    match skipWs cs with
    | [] => none
    | c :: rest =>
      if c == ']' && acc.isEmpty then some (Json.arr [], rest)
      else
        match parseVal fuel cs with
        | none => none
        | some (v, rest2) =>
          match skipWs rest2 with
          | ',' :: rest3 => parseArrItems fuel rest3 (acc ++ [v])
          | ']' :: rest3 => some (Json.arr (acc ++ [v]), rest3)
          | _ => none

end

/-- `json.loads`: the whole input must be one JSON value (with surrounding
whitespace). -/
def Json.parse (s : String) : Option Json :=
  match parseVal (2 * s.length + 2) s.toList with
  | some (v, rest) => if skipWs rest = [] then some v else none
  | none => none

/-! ### Python value semantics

Python ints and floats are both modelled as exact rationals.  This is the
usual idealisation for a shallow embedding; every arithmetic step of the
pipeline (means, divisions by 5, rounding to two decimals) is exact here
whereas CPython computes in binary floating point. -/

/-- Truncation toward zero, the behaviour of Python `int(float_value)`. -/
def truncQ (q : ℚ) : ℤ :=
  if 0 ≤ q then q.floor else -((-q).floor)

/-- Round half to even, the behaviour of Python `round` on exact values.
The fractional part `q - floor q` equals `(q.num - floor q * q.den) /
q.den`, so the comparisons with one half are carried out on integers. -/
def roundHE (q : ℚ) : ℤ :=
  if 2 * (q.num - q.floor * q.den) < q.den then q.floor
  else if (q.den : ℤ) < 2 * (q.num - q.floor * q.den) then q.floor + 1
  else if q.floor % 2 = 0 then q.floor else q.floor + 1

/-- Python `round(x, 2)`. -/
def round2 (q : ℚ) : ℚ := mkRat (roundHE (qmul q 100)) 100

/-- Python `round(x)` (used only to state the rounding the spec asks for). -/
def pyRound (q : ℚ) : ℤ := roundHE q

/-- Python `float(s)` on a string: optional sign, then either
digits with an optional fraction or a bare fraction, with an optional
exponent, surrounded by optional whitespace.  (The special words inf and
nan are not modelled; no claim involves them.) -/
def pyFloatOfStr (s : String) : Option ℚ :=
  let cs := (s.toList.dropWhile isWs).reverse.dropWhile isWs |>.reverse
  let (neg, cs1) :=
    match cs with
    | '+' :: r => (false, r)
    | '-' :: r => (true, r)
    | _ => (false, cs)
  let ds := cs1.takeWhile isDigit
  let afterInt := cs1.dropWhile isDigit
  let ip := (parseDigits ds 0).1
  let (okMant, fracNum, fracLen, afterFrac) :=
    match afterInt with
    | '.' :: r =>
      let fds := r.takeWhile isDigit
      let r2 := r.dropWhile isDigit
      if ds.isEmpty && fds.isEmpty then (false, 0, 0, r2)
      else (true, (parseDigits fds 0).1, fds.length, r2)
    | _ => (! ds.isEmpty, 0, 0, afterInt)
  if ! okMant then none
  else
    match afterFrac with
    | [] => some (mkDec neg ip fracNum fracLen 0)
    | e :: r =>
      if e == 'e' || e == 'E' then
        let (esign, r2) :=
          match r with
          | '+' :: rr => ((1 : ℤ), rr)
          | '-' :: rr => ((-1 : ℤ), rr)
          | _ => ((1 : ℤ), r)
        let eds := r2.takeWhile isDigit
        let r3 := r2.dropWhile isDigit
        if eds.isEmpty || ! r3.isEmpty then none
        else some (mkDec neg ip fracNum fracLen (esign * ((parseDigits eds 0).1 : ℤ)))
      else none

/-- Python `int(s)` on a string: optional sign and digits only. -/
def pyIntOfStr (s : String) : Option ℤ :=
  let cs := (s.toList.dropWhile isWs).reverse.dropWhile isWs |>.reverse
  let (neg, cs1) :=
    match cs with
    | '+' :: r => (false, r)
    | '-' :: r => (true, r)
    | _ => (false, cs)
  if cs1.isEmpty || ! (cs1.all isDigit) then none
  else
    let v : ℤ := ((parseDigits cs1 0).1 : ℤ)
    some (if neg then -v else v)

/-- Python `float(x)`: numbers pass through, numeric strings are parsed,
booleans become 0 or 1, everything else raises (`none`). -/
def pyFloat : Json → Option ℚ
  | .num q => some q
  | .str s => pyFloatOfStr s
  | .bool b => some (if b then 1 else 0)
  | _ => none

/-- Python `int(x)`: floats truncate toward zero, strings must be integer
literals, booleans become 0 or 1, everything else raises. -/
def pyInt : Json → Option ℤ
  | .num q => some (truncQ q)
  | .str s => pyIntOfStr s
  | .bool b => some (if b then 1 else 0)
  | _ => none

/-- Python truthiness of a JSON value. -/
def pyTruthy : Json → Bool
  | .null => false
  | .bool b => b
  | .num q => decide (q ≠ 0)
  | .str s => ! s.toList.isEmpty
  | .arr l => ! l.isEmpty
  | .obj l => ! l.isEmpty

/-- Decimal-ish rendering of a number for `str(x)`.  Integer values render
exactly as Python ints do; the rendering of non-integer values is an
approximation of the float repr (no claim depends on that text). -/
def numRepr (q : ℚ) : String :=
  if q.den = 1 then toString q.num
  else toString q.num ++ "/" ++ toString q.den

mutual

/-- Python `str(x)` for a JSON value (`repr` for nested containers). -/
def pyStr : Json → String
  | .null => "None"
  | .bool true => "True"
  | .bool false => "False"
  | .num q => numRepr q
  | .str s => s
  | .arr items => "[" ++ pyStrList items ++ "]"
  | .obj kvs => "\x7b" ++ pyStrFields kvs ++ "\x7d"

def pyStrList : List Json → String
  | [] => ""
  | [x] => pyStr x
  | x :: xs => pyStr x ++ ", " ++ pyStrList xs

def pyStrFields : List (String × Json) → String
  | [] => ""
  | [(k, v)] => k ++ ": " ++ pyStr v
  | (k, v) :: xs => k ++ ": " ++ pyStr v ++ ", " ++ pyStrFields xs

end

/-- Python slicing `s[:n]`: the first `n` characters. -/
def pyTake (s : String) (n : ℕ) : String :=
  String.mk (s.toList.take n)

/-- `"sep".join(parts)`. -/
def joinStrs (sep : String) : List String → String
  | [] => ""
  | [s] => s
  | s :: rest => s ++ sep ++ joinStrs sep rest

/-- `d.get(k, default)`. -/
def getD (kvs : List (String × Json)) (k : String) (d : Json) : Json :=
  match dictGet kvs k with
  | some v => v
  | none => d

/-- Build the list of results of a fallible step over a list, failing on
the first failure (a Python `for` loop appending to an accumulator, where
the step may raise). -/
def mapO {α β : Type} (f : α → Option β) : List α → Option (List β)
  | [] => some []
  | a :: l => do
    let b ← f a
    let bs ← mapO f l
    some (b :: bs)

/-- The same loop shape when the step returns `Except`. -/
def mapE {ε α β : Type} (f : α → Except ε β) : List α → Except ε (List β)
  | [] => .ok []
  | a :: l =>
    match f a with
    | .error e => .error e
    | .ok b => (mapE f l).map (b :: ·)

/-! ### The report schema (the Pydantic models of `app.py`) -/

structure EvidenceItem where
  page : ℤ
  quote : String
  deriving Repr, DecidableEq

structure FlagItem where
  title : String
  severity : ℤ
  why_it_matters : String
  recommendation : String
  evidence : List EvidenceItem
  deriving Repr, DecidableEq

structure ReportOut where
  summary : String
  overall_risk : ℚ
  flags : List FlagItem
  deriving Repr, DecidableEq

/-! ### Strict validation: `ReportOut(**obj)` under Pydantic lax mode.

Lax coercions modelled: int fields accept integral numbers and integer
literal strings; float fields accept numbers and numeric strings; string
fields accept strings only; booleans are rejected for numeric fields. -/

def pydInt (j : Json) : Option ℤ :=
  match j with
  | .num q => if q.den = 1 then some q.num else none
  | .str s => pyIntOfStr s
  | _ => none

def pydFloat (j : Json) : Option ℚ :=
  match j with
  | .num q => some q
  | .str s => pyFloatOfStr s
  | _ => none

def pydStr (j : Json) : Option String :=
  match j with
  | .str s => some s
  | _ => none

/-- `EvidenceItem` validation: `page ≥ 1`, `1 ≤ len(quote) ≤ 600`. -/
def pydEvidence (j : Json) : Option EvidenceItem :=
  match j with
  | .obj kvs => do
    let page ← dictGet kvs "page" >>= pydInt
    let quote ← dictGet kvs "quote" >>= pydStr
    if 1 ≤ page ∧ 1 ≤ quote.length ∧ quote.length ≤ 600 then
      some ⟨page, quote⟩
    else none
  | _ => none

/-- The evidence field of a flag: missing means `[]` (default factory), a
list is validated item by item, anything else is rejected. -/
def pydEvidenceList (v : Option Json) : Option (List EvidenceItem) :=
  match v with
  | none => some []
  | some (.arr items) => mapO pydEvidence items
  | some _ => none

/-- `FlagItem` validation: `1 ≤ severity ≤ 5`; evidence defaults to `[]`. -/
def pydFlag (j : Json) : Option FlagItem :=
  match j with
  | .obj kvs => do
    let title ← dictGet kvs "title" >>= pydStr
    let sev ← dictGet kvs "severity" >>= pydInt
    let why ← dictGet kvs "why_it_matters" >>= pydStr
    let reco ← dictGet kvs "recommendation" >>= pydStr
    let evs ← pydEvidenceList (dictGet kvs "evidence")
    if 1 ≤ sev ∧ sev ≤ 5 then
      some ⟨title, sev, why, reco, evs⟩
    else none
  | _ => none

/-- The quote clip `if len(ev.quote) > 600: ev.quote = ev.quote[:600]`
applied to every evidence entry of one flag.  The `ensure_quotes_len`
validator, the final clamp of `validate_and_postprocess` and the merge
loop of `analyze_chunks` all perform exactly this operation. -/
def clampFlagQuotes (f : FlagItem) : FlagItem :=
  { f with
    evidence := f.evidence.map fun e =>
      if 600 < e.quote.length then { e with quote := pyTake e.quote 600 }
      else e }

/-- The `ensure_quotes_len` field validator of `ReportOut` (clips quotes
longer than 600 characters; on the strict path the length bound was
already checked per item, so this is defensive). -/
def ensure_quotes_len (flags : List FlagItem) : List FlagItem :=
  flags.map clampFlagQuotes

/-- The flags field of a report: must be a list of valid flag items. -/
def pydFlagsList (v : Option Json) : Option (List FlagItem) :=
  match v with
  | some (.arr items) => mapO pydFlag items
  | _ => none

/-- `ReportOut(**obj)`: `overall_risk ≥ 0`, flags must be a list of valid
flag items; extra keys are ignored (Pydantic default). -/
def strictReport (kvs : List (String × Json)) : Option ReportOut := do
  let summary ← dictGet kvs "summary" >>= pydStr
  let risk ← dictGet kvs "overall_risk" >>= pydFloat
  let flags ← pydFlagsList (dictGet kvs "flags")
  if 0 ≤ risk then
    some ⟨summary, risk, ensure_quotes_len flags⟩
  else none

/-! ### The lenient coercion pass (the `except ValidationError` branch of
`validate_and_postprocess`). -/

/-- One evidence entry of the lenient pass:
`{"page": max(1, int(ev.get("page", 1))), "quote": str(ev.get("quote", ""))[:600]}`. -/
def lenientEvidence (j : Json) : Option EvidenceItem :=
  match j with
  | .obj kvs => do
    let page ← pyInt (getD kvs "page" (.num 1))
    some ⟨max 1 page, pyTake (pyStr (getD kvs "quote" (.str ""))) 600⟩
  | _ => none

/-- Python `x or []` followed by iteration: falsy values give the empty
list, a real list iterates, any other truthy value fails during the loop
(string and dict elements lack `.get`, numbers are not iterable). -/
def iterList (v : Option Json) : Option (List Json) :=
  match v with
  | none => some []
  | some v =>
    if pyTruthy v then
      match v with
      | .arr items => some items
      | _ => none
    else some []

/-- One flag of the lenient pass: severity via
`max(1, min(5, int(float(f.get("severity", 3)))))`, text fields via `str`
with defaults, evidence via `lenientEvidence`. -/
def lenientFlag (j : Json) : Option FlagItem :=
  match j with
  | .obj kvs => do
    let sevQ ← pyFloat (getD kvs "severity" (.num 3))
    let sev := max 1 (min 5 (truncQ sevQ))
    let evs ← iterList (dictGet kvs "evidence") >>= mapO lenientEvidence
    some ⟨pyStr (getD kvs "title" (.str "Risk")), sev,
          pyStr (getD kvs "why_it_matters" (.str "")),
          pyStr (getD kvs "recommendation" (.str "")), evs⟩
  | _ => none

/-- The whole lenient branch, ending in `ReportOut(summary=...,
overall_risk=..., flags=safe_flags)`, whose own validation can still fail:
a negative risk or an empty coerced quote is rejected there. -/
def lenientReport (kvs : List (String × Json)) : Option ReportOut := do
  let flagsJson ← iterList (dictGet kvs "flags")
  let safe_flags ← mapO lenientFlag flagsJson
  let summary := pyStr (getD kvs "summary" (.str ""))
  let riskVal := getD kvs "overall_risk" (.num 0)
  let risk ← pyFloat (if pyTruthy riskVal then riskVal else .num 0)
  if 0 ≤ risk ∧ safe_flags.all fun f => f.evidence.all fun e => 1 ≤ e.quote.length then
    some ⟨summary, risk, ensure_quotes_len safe_flags⟩
  else none

/-! ### Post-validation steps and the normalizer itself -/

def meanSeverity (flags : List FlagItem) : ℚ :=
  mkRat (flags.map (·.severity)).sum flags.length

/-- Lines 217-223: re-derive a zero (or falsy) overall risk from the mean
severity, or set it to 0 when there are no flags. -/
def deriveRisk (r : ReportOut) : ReportOut :=
  if r.overall_risk ≤ 0 then
    if r.flags.isEmpty then { r with overall_risk := 0 }
    else { r with
      overall_risk := round2 (qmul (qdiv (meanSeverity r.flags) 5) 100) }
  else r

/-- Lines 224-228: the final defensive quote truncation pass. -/
def clampQuotes (r : ReportOut) : ReportOut :=
  { r with flags := r.flags.map clampFlagQuotes }

/-- Line 187-188: default `flags` to `[]` when the key is missing. -/
def presetFlags (kvs : List (String × Json)) : List (String × Json) :=
  if dictHas kvs "flags" then kvs else dictSet kvs "flags" (.arr [])

/-- Lines 187-191: default `flags` to `[]` when missing and replace a
missing, `None` or `""` overall risk by `0.0`, before validation. -/
def presetObj (kvs : List (String × Json)) : List (String × Json) :=
  match dictGet (presetFlags kvs) "overall_risk" with
  | none => dictSet (presetFlags kvs) "overall_risk" (.num 0)
  | some .null => dictSet (presetFlags kvs) "overall_risk" (.num 0)
  | some (.str s) =>
    if s = "" then dictSet (presetFlags kvs) "overall_risk" (.num 0)
    else presetFlags kvs
  | some _ => presetFlags kvs

/-- `validate_and_postprocess` (app.py lines 185-229).  A non-dict input
fails immediately (`"flags" not in obj` raises a TypeError in Python). -/
def validate_and_postprocess (j : Json) : Except String ReportOut :=
  match j with
  | .obj kvs0 =>
    let kvs := presetObj kvs0
    match strictReport kvs with
    | some report => .ok (clampQuotes (deriveRisk report))
    | none =>
      match lenientReport kvs with
      | some report => .ok (clampQuotes (deriveRisk report))
      | none => .error "coercion failed"
  | _ => .error "not a JSON object"

/-- `json.loads(report.model_dump_json())`: the canonical JSON form of a
validated report, as handed to callers. -/
def evidenceToJson (e : EvidenceItem) : Json :=
  .obj [("page", .num (e.page : ℚ)), ("quote", .str e.quote)]

def flagToJson (f : FlagItem) : Json :=
  .obj [("title", .str f.title), ("severity", .num (f.severity : ℚ)),
        ("why_it_matters", .str f.why_it_matters),
        ("recommendation", .str f.recommendation),
        ("evidence", .arr (f.evidence.map evidenceToJson))]

def reportToJson (r : ReportOut) : Json :=
  .obj [("summary", .str r.summary), ("overall_risk", .num r.overall_risk),
        ("flags", .arr (r.flags.map flagToJson))]

/-! ### `force_parse_json` (app.py lines 169-183) -/

/-- `re.sub(r"^X[a-zA-Z]*", "", s)` where X is a three-backtick fence:
drop the fence and its language tag when the string starts with one. -/
def stripLeadFence : List Char → List Char
  | '`' :: '`' :: '`' :: rest => rest.dropWhile isAlpha
  | cs => cs

/-- `re.sub` of a trailing three-backtick fence at end of string (the
input was stripped, so there is no trailing newline for `$` to sit
before). -/
def stripTrailFence (cs : List Char) : List Char :=
  if 3 ≤ cs.length ∧ cs.drop (cs.length - 3) = ['`', '`', '`'] then
    cs.take (cs.length - 3)
  else cs

/-- `re.search` of the largest brace-delimited span: from the first `{`
through the last `}` when that span is non-degenerate, otherwise the
whole string (no match). -/
def braceSpan (cs : List Char) : List Char :=
  match cs.findIdx? (· = '{') with
  | none => cs
  | some i =>
    match cs.reverse.findIdx? (· = '}') with
    | none => cs
    | some jr =>
      let j := cs.length - 1 - jr
      if i < j then (cs.take (j + 1)).drop i else cs

/-- The head of the remaining text must be a closing bracket. -/
def headBracket : List Char → Option (Char × List Char)
  | c :: tl => if c = '}' ∨ c = ']' then some (c, tl) else none
  | [] => none

/-- After a comma, skip `\s*` and demand a closing bracket. -/
def dropWsThenBracket (cs : List Char) : Option (Char × List Char) :=
  headBracket (cs.dropWhile isWs)

/-- `re.sub(r",\s*([}\]])", r"\1", candidate)`: a left-to-right scan that
replaces a comma plus whitespace directly before a closing bracket by the
bracket alone.  Fuel-indexed (each step consumes at least one character,
so fuel equal to the length is enough). -/
def stripTC : ℕ → List Char → List Char
  | 0, cs => cs
  | _ + 1, [] => []
  | fuel + 1, c :: rest =>
    if c = ',' then
      match dropWsThenBracket rest with
      | some (b, tl) => b :: stripTC fuel tl
      | none => ',' :: stripTC fuel rest
    else c :: stripTC fuel rest

/-- The candidate extraction of `force_parse_json`: strip, drop fences,
take the brace span. -/
def jsonCandidate (s : String) : String :=
  String.mk (braceSpan (stripTrailFence (stripLeadFence (stripWsEnds s.toList))))

/-- The trailing-comma repair applied to a candidate. -/
def repairCommas (s : String) : String :=
  String.mk (stripTC s.length s.toList)

/-- `force_parse_json`: strict parse of the candidate, then one repaired
parse, then failure (`UnparseableResponse`). -/
def force_parse_json (s : String) : Except String Json :=
  match Json.parse (jsonCandidate s) with
  | some v => .ok v
  | none =>
    match Json.parse (repairCommas (jsonCandidate s)) with
    | some v => .ok v
    | none => .error "unparseable response"

/-! ### `chunk_text` (app.py lines 58-71)

The while loop of the source does not always terminate, so the loop is
fuel-indexed: `none` means the fuel ran out with the loop still going. -/

def chunkLoop (t : List Char) (maxc ov : ℕ) :
    ℕ → ℕ → List String → Option (List String)
  | 0, _, _ => none
  | fuel + 1, start, acc =>
    if start < t.length then
      let e := min (start + maxc) t.length
      let acc2 := acc ++ [String.mk ((t.take e).drop start)]
      if e = t.length then some acc2
      else chunkLoop t maxc ov fuel (e - ov) acc2
    else some acc

def chunk_text (s : String) (maxc ov fuel : ℕ) : Option (List String) :=
  let t := stripWsEnds s.toList
  if t.isEmpty then some []
  else chunkLoop t maxc ov fuel 0 []

/-! ### `call_groq_json` (app.py lines 129-166)

The completion API is abstracted as a response stream: the k-th call
returns `respond k`.  One loop iteration makes a primary call and, inside
the exception handler, a stricter retry call; the loop runs `retry + 1`
times before raising the terminal error with the last cause. -/

/-- Parse and validate one raw model response (the try-body of the loop). -/
def tryOnce (s : String) : Except String ReportOut :=
  (force_parse_json s).bind validate_and_postprocess

/-- The loop, returning the outcome and the number of API calls made. -/
def callGroqLoop (respond : ℕ → String) :
    ℕ → ℕ → String → Except String ReportOut × ℕ
  | 0, k, lastErr => (.error ("Groq parsing failed: " ++ lastErr), k)
  | attempts + 1, k, _ =>
    match tryOnce (respond k) with
    | .ok r => (.ok r, k + 1)
    | .error _ =>
      match tryOnce (respond (k + 1)) with
      | .ok r => (.ok r, k + 2)
      | .error e2 => callGroqLoop respond attempts (k + 2) e2

def call_groq_json (respond : ℕ → String) (retry : ℕ) :
    Except String ReportOut × ℕ :=
  callGroqLoop respond (retry + 1) 0 ""

/-! ### `analyze_chunks` (app.py lines 295-323) -/

inductive AnalyzeError where
  | noContent
  | chunkFailed (msg : String)
  | normalizeFailed (msg : String)
  deriving Repr, DecidableEq

/-- Line 322: run the merged draft through the normalizer once more,
wrapping its failure as an analysis error. -/
def finishMerge (j : Json) : Except AnalyzeError ReportOut :=
  match validate_and_postprocess j with
  | .ok r => .ok r
  | .error e => .error (.normalizeFailed e)

/-- The per-chunk calls, merge and re-normalization of `analyze_chunks`,
applied to the selected chunk prefix. -/
def analyzeSel (callChunk : String → Except String ReportOut)
    (sel : List String) : Except AnalyzeError ReportOut :=
  match mapE callChunk sel with
    | .error e => .error (.chunkFailed e)
    | .ok results =>
      let summaries := results.map (·.summary)
      let risks0 := results.map (·.overall_risk)
      let merged_flags := (results.map (·.flags)).flatten.map clampFlagQuotes
      let risks := if risks0.isEmpty then [(0 : ℚ)] else risks0
      let overall := round2 (qdiv (qsum risks) (risks.length : ℚ))
      let joined := String.mk (stripWsEnds
        (joinStrs "\n\n" (summaries.filter (fun s => ! s.toList.isEmpty))).toList)
      let combined :=
        if joined = "" then "No significant risks identified." else joined
      finishMerge
        (.obj [("summary", .str combined), ("overall_risk", .num overall),
               ("flags", .arr (merged_flags.map flagToJson))])

/-- `analyze_chunks`, abstracted over the per-chunk pipeline result
`callChunk` (in the source, `call_groq_json` on that chunk, which returns
an already-validated report).  Raises `NoContent` on an empty chunk list,
processes the first `min 3 len` chunks sequentially, propagates the first
chunk failure, merges, and re-normalizes the merged draft. -/
def analyze_chunks (callChunk : String → Except String ReportOut)
    (chunks : List String) : Except AnalyzeError ReportOut :=
  if chunks.isEmpty then .error .noContent
  else analyzeSel callChunk (chunks.take (min 3 chunks.length))

/-! ## Concrete inputs and outputs used by the witnesses below -/

/-- A raw object with severities 0 and 6: strict validation fails, the
lenient pass clamps. -/
def c1obj : Json := .obj [("summary", .str "s"),
  ("flags", .arr [
    .obj [("title", .str "A"), ("severity", .num 0),
          ("why_it_matters", .str "w"), ("recommendation", .str "r"),
          ("evidence", .arr [.obj [("page", .num 2), ("quote", .str "q")]])],
    .obj [("title", .str "B"), ("severity", .num 6),
          ("why_it_matters", .str "w"), ("recommendation", .str "r")]])]

def c1rep : ReportOut :=
  { summary := "s", overall_risk := 60,
    flags := [
      { title := "A", severity := 1, why_it_matters := "w",
        recommendation := "r", evidence := [{ page := 2, quote := "q" }] },
      { title := "B", severity := 5, why_it_matters := "w",
        recommendation := "r", evidence := [] }] }

/-- A raw object carrying an overall risk of 500 and no flags. -/
def c2kvs : List (String × Json) :=
  [("summary", .str "s"), ("overall_risk", .num 500), ("flags", .arr [])]

def c2rep : ReportOut := { summary := "s", overall_risk := 500, flags := [] }

/-- Severities [3,4,5] with no stored overall risk. -/
def c4kvs : List (String × Json) :=
  [("summary", .str "s"),
   ("flags", .arr [
     .obj [("title", .str "A"), ("severity", .num 3),
           ("why_it_matters", .str "w"), ("recommendation", .str "r"),
           ("evidence", .arr [])],
     .obj [("title", .str "B"), ("severity", .num 4),
           ("why_it_matters", .str "w"), ("recommendation", .str "r"),
           ("evidence", .arr [])],
     .obj [("title", .str "C"), ("severity", .num 5),
           ("why_it_matters", .str "w"), ("recommendation", .str "r"),
           ("evidence", .arr [])]])]

def c4rep : ReportOut :=
  { summary := "s", overall_risk := 80,
    flags := [
      { title := "A", severity := 3, why_it_matters := "w",
        recommendation := "r", evidence := [] },
      { title := "B", severity := 4, why_it_matters := "w",
        recommendation := "r", evidence := [] },
      { title := "C", severity := 5, why_it_matters := "w",
        recommendation := "r", evidence := [] }] }

/-- A valid report with one flag and a stored zero risk. -/
def c10obj : Json := .obj [("summary", .str "s"), ("overall_risk", .num 0),
  ("flags", .arr [
    .obj [("title", .str "A"), ("severity", .num 2),
          ("why_it_matters", .str "w"), ("recommendation", .str "r"),
          ("evidence", .arr [])]])]

def c10rep : ReportOut :=
  { summary := "s", overall_risk := 40,
    flags := [{ title := "A", severity := 2, why_it_matters := "w",
                recommendation := "r", evidence := [] }] }

/-- A raw object whose only schema violation is the severity 4.7. -/
def c3kvs : List (String × Json) :=
  [("summary", .str "s"), ("overall_risk", .num 10),
   ("flags", .arr [
     .obj [("title", .str "t"), ("severity", .num (mkRat 47 10)),
           ("why_it_matters", .str "w"), ("recommendation", .str "r"),
           ("evidence", .arr [])]])]

def c3rep : ReportOut :=
  { summary := "s", overall_risk := 10,
    flags := [{ title := "t", severity := 4, why_it_matters := "w",
                recommendation := "r", evidence := [] }] }

/-- A fenced code block holding an object with a trailing comma. -/
def c6str : String :=
  "```json\n\x7b\"summary\": \"ok\", \"overall_risk\": 10, \"flags\": [],\x7d\n```"

def c6json : Json :=
  .obj [("summary", .str "ok"), ("overall_risk", .num 10),
        ("flags", .arr [])]

/-- An already-valid report object. -/
def c8kvs : List (String × Json) :=
  [("summary", .str "s"), ("overall_risk", .num 10), ("flags", .arr [])]

/-! ## The lenient pass as the specification words it

These definitions follow the specification sentence for the lenient
coercion (severity parsed as a number, truncated toward zero and clamped
to [1,5] with default 3 when the key is missing; page parsed as an
integer with minimum 1 and default 1; quote stringified and truncated to
600 characters; missing text fields defaulting to the empty string and a
missing title to "Risk").  They are later proved extensionally equal to
the code path `lenientReport`. -/

def specSeverity (kvs : List (String × Json)) : Option ℤ :=
  match dictGet kvs "severity" with
  | none => some 3
  | some v => (pyFloat v).map fun q => max 1 (min 5 (truncQ q))

def specPage (kvs : List (String × Json)) : Option ℤ :=
  match dictGet kvs "page" with
  | none => some 1
  | some v => (pyInt v).map fun n => max 1 n

def specQuote (kvs : List (String × Json)) : String :=
  pyTake (match dictGet kvs "quote" with
    | none => ""
    | some v => pyStr v) 600

def specText (kvs : List (String × Json)) (k d : String) : String :=
  match dictGet kvs k with
  | none => d
  | some v => pyStr v

def specEvidence (j : Json) : Option EvidenceItem :=
  match j with
  | .obj kvs => (specPage kvs).map fun p => ⟨p, specQuote kvs⟩
  | _ => none

def specFlag (j : Json) : Option FlagItem :=
  match j with
  | .obj kvs => do
    let sev ← specSeverity kvs
    let evs ← iterList (dictGet kvs "evidence") >>= mapO specEvidence
    some ⟨specText kvs "title" "Risk", sev,
          specText kvs "why_it_matters" "",
          specText kvs "recommendation" "", evs⟩
  | _ => none

def specLenientReport (kvs : List (String × Json)) : Option ReportOut := do
  let flagsJson ← iterList (dictGet kvs "flags")
  let safe_flags ← mapO specFlag flagsJson
  let summary := specText kvs "summary" ""
  let riskVal := getD kvs "overall_risk" (.num 0)
  let risk ← pyFloat (if pyTruthy riskVal then riskVal else .num 0)
  if 0 ≤ risk ∧ safe_flags.all fun f => f.evidence.all fun e => 1 ≤ e.quote.length then
    some ⟨summary, risk, ensure_quotes_len safe_flags⟩
  else none

/-- The normalizer as a dict-to-dict map (`json.loads` of the dump). -/
def normalizeDict (j : Json) : Except String Json :=
  (validate_and_postprocess j).map reportToJson

/-- An already-valid report object: one that the strict schema accepts
as stored. -/
def ValidReportJson (x : Json) : Prop :=
  ∃ kvs, x = Json.obj kvs ∧ (strictReport kvs).isSome

/-! ## Helper lemmas -/

section Helpers

variable {α β : Type}

theorem mapO_mem (f : α → Option β) :
    ∀ {l : List α} {out : List β}, mapO f l = some out →
      ∀ b ∈ out, ∃ a ∈ l, f a = some b := by
  intro l
  induction l with
  | nil =>
    intro out h b hb
    simp [mapO] at h
    subst h
    simp at hb
  | cons a l ih =>
    intro out h b hb
    rcases ha : f a with _ | fa <;> simp [mapO, ha] at h
    rcases hl : mapO f l with _ | tl <;> rw [hl] at h <;> simp at h
    subst h
    rcases List.mem_cons.mp hb with hb2 | hb2
    · exact ⟨a, by simp, hb2 ▸ ha⟩
    · rcases ih hl b hb2 with ⟨a2, ha2, hfa2⟩
      exact ⟨a2, by simp [ha2], hfa2⟩

theorem mapO_of_map (g : β → Option α) (fm : α → β) :
    ∀ (l : List α), (∀ a ∈ l, g (fm a) = some a) →
      mapO g (l.map fm) = some l := by
  intro l
  induction l with
  | nil => intro _; rfl
  | cons a l ih =>
    intro h
    rw [List.map_cons]
    simp [mapO, h a (by simp), ih (fun a ha => h a (by simp [ha]))]

theorem map_id_on (f : α → α) :
    ∀ (l : List α), (∀ a ∈ l, f a = a) → l.map f = l := by
  intro l
  induction l with
  | nil => intro _; rfl
  | cons a l ih =>
    intro h
    rw [List.map_cons, h a (by simp), ih (fun a ha => h a (by simp [ha]))]

/-- `mkRat` is division. -/
theorem qmk_eq (n : ℤ) (d : ℕ) : mkRat n d = (n : ℚ) / (d : ℚ) := by
  rw [Rat.mkRat_eq_divInt, Rat.divInt_eq_div]
  norm_num

theorem qadd_eq (a b : ℚ) : qadd a b = a + b := by
  unfold qadd
  rw [Rat.mkRat_eq_divInt, Rat.divInt_eq_div]
  have ha : ((a.den : ℚ)) ≠ 0 := by exact_mod_cast a.den_nz
  have hb : ((b.den : ℚ)) ≠ 0 := by exact_mod_cast b.den_nz
  conv_rhs => rw [← Rat.num_div_den a, ← Rat.num_div_den b]
  rw [div_add_div _ _ ha hb]
  push_cast
  ring_nf

theorem qmul_eq (a b : ℚ) : qmul a b = a * b := by
  unfold qmul
  rw [Rat.mkRat_eq_divInt, Rat.divInt_eq_div]
  conv_rhs => rw [← Rat.num_div_den a, ← Rat.num_div_den b]
  rw [div_mul_div_comm]
  push_cast
  ring_nf

theorem qdiv_eq (a b : ℚ) : qdiv a b = a / b := by
  unfold qdiv
  rw [Rat.divInt_eq_div]
  by_cases hb : b = 0
  · subst hb
    simp
  · have h3 : ((b.num : ℚ)) ≠ 0 := by
      simpa [Rat.num_eq_zero] using hb
    have h1 : ((a.den : ℚ)) ≠ 0 := by exact_mod_cast a.den_nz
    have h2 : ((b.den : ℚ)) ≠ 0 := by exact_mod_cast b.den_nz
    have hA : (a.num : ℚ) = a * a.den := by
      have h := Rat.num_div_den a
      rw [div_eq_iff h1] at h
      linarith [h]
    have hB : (b.num : ℚ) = b * b.den := by
      have h := Rat.num_div_den b
      rw [div_eq_iff h2] at h
      linarith [h]
    push_cast
    rw [div_eq_div_iff (mul_ne_zero h1 h3) hb]
    rw [hA, hB]
    ring

theorem qsum_eq (l : List ℚ) : qsum l = l.sum := by
  induction l with
  | nil => rfl
  | cons a l ih =>
    show qadd a (qsum l) = (a :: l).sum
    rw [qadd_eq, ih, List.sum_cons]

/-- A rational is its floor plus a fractional part `s / den` with
`0 ≤ s < den`. -/
theorem floor_frac (q : ℚ) :
    q = (q.floor : ℚ) + ((q.num - q.floor * q.den : ℤ) : ℚ) / (q.den : ℚ) := by
  have hd : ((q.den : ℚ)) ≠ 0 := by exact_mod_cast q.den_nz
  have h := Rat.num_div_den q
  rw [div_eq_iff hd] at h
  field_simp

theorem frac_bounds (q : ℚ) :
    0 ≤ q.num - q.floor * q.den ∧ q.num - q.floor * q.den < q.den := by
  have hd : (0 : ℚ) < (q.den : ℚ) := by exact_mod_cast q.den_pos
  have h1 : ((q.floor : ℤ) : ℚ) ≤ q := Int.floor_le q
  have h2 : q < q.floor + 1 := Int.lt_floor_add_one q
  have hd2 : ((q.den : ℚ)) ≠ 0 := ne_of_gt hd
  have hnum : (q.num : ℚ) = q * q.den := by
    have h := Rat.num_div_den q
    rw [div_eq_iff hd2] at h
    linarith [h]
  constructor
  · have : (0 : ℚ) ≤ (q.num : ℚ) - q.floor * q.den := by
      have := mul_le_mul_of_nonneg_right h1 (le_of_lt hd)
      rw [← hnum] at this
      linarith
    exact_mod_cast this
  · have : (q.num : ℚ) - q.floor * q.den < q.den := by
      have := mul_lt_mul_of_pos_right h2 hd
      rw [← hnum] at this
      push_cast at this ⊢
      linarith
    exact_mod_cast this

/-- Half-even rounding stays within half a unit. -/
theorem roundHE_le (q : ℚ) : (roundHE q : ℚ) ≤ q + 1 / 2 := by
  unfold roundHE
  have hq := floor_frac q
  have hb := frac_bounds q
  have hd : (0 : ℚ) < (q.den : ℚ) := by exact_mod_cast q.den_pos
  have hfl : ((q.floor : ℤ) : ℚ) ≤ q := Int.floor_le q
  have hfrac0 : (0 : ℚ) ≤ ((q.num - q.floor * q.den : ℤ) : ℚ) / (q.den : ℚ) :=
    div_nonneg (by exact_mod_cast hb.1) (le_of_lt hd)
  split_ifs with h1 h2 h3
  · push_cast
    linarith
  · have h2Q : (q.den : ℚ) < 2 * ((q.num - q.floor * q.den : ℤ) : ℚ) := by
      exact_mod_cast h2
    have hfrac : 1 / 2 < ((q.num - q.floor * q.den : ℤ) : ℚ) / (q.den : ℚ) := by
      rw [lt_div_iff₀ hd]
      linarith
    push_cast
    linarith
  · push_cast
    linarith
  · have heq : 2 * (q.num - q.floor * q.den) = q.den := by omega
    have heqQ : 2 * ((q.num - q.floor * q.den : ℤ) : ℚ) = (q.den : ℚ) := by
      exact_mod_cast heq
    have hfrac : ((q.num - q.floor * q.den : ℤ) : ℚ) / (q.den : ℚ) = 1 / 2 := by
      rw [div_eq_iff (ne_of_gt hd)]
      linarith
    push_cast
    linarith

theorem le_roundHE (q : ℚ) : q - 1 / 2 ≤ (roundHE q : ℚ) := by
  unfold roundHE
  have hq := floor_frac q
  have hb := frac_bounds q
  have hd : (0 : ℚ) < (q.den : ℚ) := by exact_mod_cast q.den_pos
  have hlt : q < q.floor + 1 := Int.lt_floor_add_one q
  split_ifs with h1 h2 h3
  · have h1Q : 2 * ((q.num - q.floor * q.den : ℤ) : ℚ) < (q.den : ℚ) := by
      exact_mod_cast h1
    have hfrac : ((q.num - q.floor * q.den : ℤ) : ℚ) / (q.den : ℚ) < 1 / 2 := by
      rw [div_lt_iff₀ hd]
      linarith
    push_cast
    linarith
  · push_cast
    linarith
  · have heq : 2 * (q.num - q.floor * q.den) = q.den := by omega
    have heqQ : 2 * ((q.num - q.floor * q.den : ℤ) : ℚ) = (q.den : ℚ) := by
      exact_mod_cast heq
    have hfrac : ((q.num - q.floor * q.den : ℤ) : ℚ) / (q.den : ℚ) = 1 / 2 := by
      rw [div_eq_iff (ne_of_gt hd)]
      linarith
    push_cast
    linarith
  · push_cast
    linarith

theorem round2_eq (q : ℚ) : round2 q = (roundHE (q * 100) : ℚ) / 100 := by
  unfold round2
  rw [qmul_eq, qmk_eq]
  norm_num

theorem round2_nonneg {q : ℚ} (h : 0 ≤ q) : 0 ≤ round2 q := by
  rw [round2_eq]
  have h1 := le_roundHE (q * 100)
  have h2 : (-1 : ℤ) < roundHE (q * 100) := by
    have : (-1 : ℚ) < (roundHE (q * 100) : ℚ) := by linarith
    exact_mod_cast this
  have h3 : (0 : ℤ) ≤ roundHE (q * 100) := by omega
  have h4 : (0 : ℚ) ≤ (roundHE (q * 100) : ℚ) := by exact_mod_cast h3
  linarith

theorem round2_pos {q : ℚ} (h : 1 ≤ q) : 0 < round2 q := by
  rw [round2_eq]
  have h1 := le_roundHE (q * 100)
  have h2 : (0 : ℤ) < roundHE (q * 100) := by
    have : (0 : ℚ) < (roundHE (q * 100) : ℚ) := by linarith
    exact_mod_cast this
  have h4 : (0 : ℚ) < (roundHE (q * 100) : ℚ) := by exact_mod_cast h2
  linarith

theorem round2_le_100 {q : ℚ} (h : q ≤ 100) : round2 q ≤ 100 := by
  rw [round2_eq]
  have h1 := roundHE_le (q * 100)
  have h2 : roundHE (q * 100) ≤ 10000 := by
    have : (roundHE (q * 100) : ℚ) < 10001 := by linarith
    exact_mod_cast Int.lt_add_one_iff.mp (by exact_mod_cast this)
  have h3 : (roundHE (q * 100) : ℚ) ≤ 10000 := by exact_mod_cast h2
  linarith

/-- Clamping quotes leaves severity, title and page data unchanged. -/
theorem clampFlagQuotes_severity (f : FlagItem) :
    (clampFlagQuotes f).severity = f.severity := rfl

theorem deriveRisk_flags (r : ReportOut) : (deriveRisk r).flags = r.flags := by
  unfold deriveRisk
  split_ifs <;> rfl

theorem clampQuotes_flags (r : ReportOut) :
    (clampQuotes r).flags = r.flags.map clampFlagQuotes := rfl

theorem clampQuotes_risk (r : ReportOut) :
    (clampQuotes r).overall_risk = r.overall_risk := rfl

theorem meanSeverity_clamp (flags : List FlagItem) :
    meanSeverity (flags.map clampFlagQuotes) = meanSeverity flags := by
  unfold meanSeverity
  rw [List.map_map, List.length_map]
  rfl

/-- Mean severity of a non-empty list of in-range severities is in [1,5]. -/
theorem meanSeverity_bounds {flags : List FlagItem} (hne : flags ≠ [])
    (hb : ∀ f ∈ flags, 1 ≤ f.severity ∧ f.severity ≤ 5) :
    1 ≤ meanSeverity flags ∧ meanSeverity flags ≤ 5 := by
  unfold meanSeverity
  rw [qmk_eq]
  have hlen : 0 < (flags.length : ℚ) := by
    have : 0 < flags.length := List.length_pos.mpr hne
    exact_mod_cast this
  have hlow : (flags.length : ℤ) ≤ (flags.map (·.severity)).sum := by
    have := List.card_nsmul_le_sum (l := flags.map (·.severity)) (n := (1 : ℤ))
      (by intro x hx
          rcases List.mem_map.mp hx with ⟨f, hf, rfl⟩
          exact (hb f hf).1)
    simpa [List.length_map, nsmul_eq_mul] using this
  have hhigh : (flags.map (·.severity)).sum ≤ (flags.length : ℤ) * 5 := by
    have := List.sum_le_card_nsmul (l := flags.map (·.severity)) (n := (5 : ℤ))
      (by intro x hx
          rcases List.mem_map.mp hx with ⟨f, hf, rfl⟩
          exact (hb f hf).2)
    simpa [List.length_map, nsmul_eq_mul] using this
  constructor
  · rw [le_div_iff₀ hlen]
    have hc : ((flags.length : ℤ) : ℚ) ≤ (((flags.map (·.severity)).sum : ℤ) : ℚ) := by
      exact_mod_cast hlow
    push_cast at hc ⊢
    linarith
  · rw [div_le_iff₀ hlen]
    have hc : (((flags.map (·.severity)).sum : ℤ) : ℚ) ≤ ((flags.length : ℤ) : ℚ) * 5 := by
      exact_mod_cast hhigh
    push_cast at hc ⊢
    linarith

end Helpers

/-! ## Soundness of the two validation passes -/

/-- The bounds both validation passes establish on a flag. -/
def FlagOK (f : FlagItem) : Prop :=
  (1 ≤ f.severity ∧ f.severity ≤ 5) ∧
  ∀ e ∈ f.evidence, 1 ≤ e.page ∧ 1 ≤ e.quote.length ∧ e.quote.length ≤ 600

/-- The bounds both validation passes establish on a report. -/
def RepOK (r : ReportOut) : Prop :=
  0 ≤ r.overall_risk ∧ ∀ f ∈ r.flags, FlagOK f

theorem pyTake_length (s : String) (n : ℕ) :
    (pyTake s n).length = min n s.length := by
  have h : (pyTake s n).length = (s.toList.take n).length := rfl
  rw [h, List.length_take]
  rfl

theorem clampFlagQuotes_OK {f : FlagItem} (h : FlagOK f) :
    FlagOK (clampFlagQuotes f) := by
  refine ⟨h.1, ?_⟩
  intro e he
  rcases List.mem_map.mp he with ⟨e0, he0, rfl⟩
  rcases h.2 e0 he0 with ⟨hp, hq1, hq2⟩
  split_ifs with hlong
  · refine ⟨hp, ?_, ?_⟩ <;> simp [pyTake_length] <;> omega
  · exact ⟨hp, hq1, hq2⟩

theorem pydEvidence_ok {j : Json} {e : EvidenceItem}
    (h : pydEvidence j = some e) :
    1 ≤ e.page ∧ 1 ≤ e.quote.length ∧ e.quote.length ≤ 600 := by
  cases j <;> simp only [pydEvidence, reduceCtorEq] at h
  case obj kvs =>
  simp only [Option.bind_eq_bind, Option.bind_eq_some] at h
  rcases h with ⟨page, hp, quote, hq, hif⟩
  by_cases hc : 1 ≤ page ∧ 1 ≤ quote.length ∧ quote.length ≤ 600
  · rw [if_pos hc] at hif
    cases hif
    exact hc
  · rw [if_neg hc] at hif
    cases hif

theorem pydEvidenceList_ok {v : Option Json} {evs : List EvidenceItem}
    (h : pydEvidenceList v = some evs) :
    ∀ e ∈ evs, 1 ≤ e.page ∧ 1 ≤ e.quote.length ∧ e.quote.length ≤ 600 := by
  intro e he
  rcases v with _ | j
  · simp [pydEvidenceList] at h
    subst h
    simp at he
  · rcases j with _ | _ | _ | _ | items | _ <;> simp [pydEvidenceList] at h
    rcases mapO_mem pydEvidence h e he with ⟨a, _, ha2⟩
    exact pydEvidence_ok ha2

theorem pydFlag_ok {j : Json} {f : FlagItem} (h : pydFlag j = some f) :
    FlagOK f := by
  cases j <;> simp only [pydFlag, reduceCtorEq] at h
  case obj kvs =>
  simp only [Option.bind_eq_bind, Option.bind_eq_some] at h
  rcases h with ⟨title, ht, sev, hs, why, hw, reco, hr, evs, hevs, hif⟩
  by_cases hc : 1 ≤ sev ∧ sev ≤ 5
  · rw [if_pos hc] at hif
    cases hif
    exact ⟨hc, pydEvidenceList_ok hevs⟩
  · rw [if_neg hc] at hif
    cases hif

theorem pydFlagsList_ok {v : Option Json} {flags : List FlagItem}
    (h : pydFlagsList v = some flags) : ∀ f ∈ flags, FlagOK f := by
  intro f hf
  rcases v with _ | j
  · simp [pydFlagsList] at h
  · rcases j with _ | _ | _ | _ | items | _ <;> simp [pydFlagsList] at h
    rcases mapO_mem pydFlag h f hf with ⟨a, _, ha2⟩
    exact pydFlag_ok ha2

theorem strictReport_ok {kvs : List (String × Json)} {rep : ReportOut}
    (h : strictReport kvs = some rep) : RepOK rep := by
  unfold strictReport at h
  simp only [Option.bind_eq_bind, Option.bind_eq_some] at h
  rcases h with ⟨summary, hsum, risk, hrisk, flags, hflags, hif⟩
  by_cases hc : 0 ≤ risk
  · rw [if_pos hc] at hif
    cases hif
    refine ⟨hc, ?_⟩
    intro f hf
    rcases List.mem_map.mp hf with ⟨f0, hf0, rfl⟩
    exact clampFlagQuotes_OK (pydFlagsList_ok hflags f0 hf0)
  · rw [if_neg hc] at hif
    cases hif

theorem lenientEvidence_ok {j : Json} {e : EvidenceItem}
    (h : lenientEvidence j = some e) :
    1 ≤ e.page ∧ e.quote.length ≤ 600 := by
  cases j <;> simp only [lenientEvidence, reduceCtorEq] at h
  case obj kvs =>
  simp only [Option.bind_eq_bind, Option.bind_eq_some] at h
  rcases h with ⟨page, hp, he⟩
  cases he
  constructor
  · exact le_max_left 1 page
  · simp [pyTake_length]

theorem lenientFlag_ok {j : Json} {f : FlagItem} (h : lenientFlag j = some f) :
    (1 ≤ f.severity ∧ f.severity ≤ 5) ∧
    ∀ e ∈ f.evidence, 1 ≤ e.page ∧ e.quote.length ≤ 600 := by
  cases j <;> simp only [lenientFlag, reduceCtorEq] at h
  case obj kvs =>
  simp only [Option.bind_eq_bind, Option.bind_eq_some] at h
  rcases h with ⟨sevQ, hs, evs, hevs, hf⟩
  cases hf
  refine ⟨⟨le_max_left _ _, max_le (by norm_num) (min_le_left 5 _)⟩, ?_⟩
  intro e he
  rcases hevs with ⟨evJson, hiter, hmap⟩
  rcases mapO_mem lenientEvidence hmap e he with ⟨a, _, ha2⟩
  exact lenientEvidence_ok ha2

theorem lenientReport_ok {kvs : List (String × Json)} {rep : ReportOut}
    (h : lenientReport kvs = some rep) : RepOK rep := by
  unfold lenientReport at h
  simp only [Option.bind_eq_bind, Option.bind_eq_some] at h
  rcases h with ⟨flagsJson, hiter, safe_flags, hmap, risk, hrisk, hif⟩
  by_cases hc : 0 ≤ risk ∧
      (safe_flags.all fun f => f.evidence.all fun e => 1 ≤ e.quote.length)
  · rw [if_pos hc] at hif
    cases hif
    refine ⟨hc.1, ?_⟩
    intro f hf
    rcases List.mem_map.mp hf with ⟨f0, hf0, rfl⟩
    apply clampFlagQuotes_OK
    rcases mapO_mem lenientFlag hmap f0 hf0 with ⟨a, _, ha2⟩
    rcases lenientFlag_ok ha2 with ⟨hsev, hev⟩
    refine ⟨hsev, ?_⟩
    intro e he
    have h1 := List.all_eq_true.mp hc.2 f0 hf0
    have h2 : ∀ x ∈ f0.evidence, 1 ≤ x.quote.length := by simpa using h1
    exact ⟨(hev e he).1, h2 e he, (hev e he).2⟩
  · rw [if_neg hc] at hif
    cases hif

/-- The risk component of `deriveRisk`, spelled out with the standard
field operations. -/
theorem deriveRisk_risk_eq (r : ReportOut) :
    (deriveRisk r).overall_risk =
      if r.overall_risk ≤ 0 then
        (if r.flags.isEmpty then 0
         else round2 (meanSeverity r.flags / 5 * 100))
      else r.overall_risk := by
  unfold deriveRisk
  split_ifs with h1 h2
  · rfl
  · show round2 (qmul (qdiv (meanSeverity r.flags) 5) 100) =
      round2 (meanSeverity r.flags / 5 * 100)
    rw [qdiv_eq, qmul_eq]
  · rfl

/-- Derivation and clamping keep the report bounds, and force a positive
risk whenever flags exist. -/
theorem post_OK {rep : ReportOut} (hrep : RepOK rep) :
    RepOK (clampQuotes (deriveRisk rep)) ∧
    ((clampQuotes (deriveRisk rep)).flags = [] ∨
      0 < (clampQuotes (deriveRisk rep)).overall_risk) := by
  have hflags : ∀ f ∈ (clampQuotes (deriveRisk rep)).flags, FlagOK f := by
    intro f hf
    rw [clampQuotes_flags, deriveRisk_flags] at hf
    rcases List.mem_map.mp hf with ⟨f0, hf0, rfl⟩
    exact clampFlagQuotes_OK (hrep.2 f0 hf0)
  have hflagsEq : (clampQuotes (deriveRisk rep)).flags =
      rep.flags.map clampFlagQuotes := by
    rw [clampQuotes_flags, deriveRisk_flags]
  have hriskEq := deriveRisk_risk_eq rep
  have hriskEq2 : (clampQuotes (deriveRisk rep)).overall_risk =
      (deriveRisk rep).overall_risk := clampQuotes_risk _
  by_cases h0 : rep.overall_risk ≤ 0
  · rw [if_pos h0] at hriskEq
    by_cases hemp : rep.flags.isEmpty
    · rw [if_pos hemp] at hriskEq
      refine ⟨⟨?_, hflags⟩, Or.inl ?_⟩
      · rw [hriskEq2, hriskEq]
      · rw [hflagsEq, List.isEmpty_iff.mp hemp]
        rfl
    · rw [if_neg hemp] at hriskEq
      have hne : rep.flags ≠ [] := fun hcon => hemp (by simp [hcon])
      have hmean := meanSeverity_bounds hne (fun f hf => (hrep.2 f hf).1)
      have hq : 1 ≤ meanSeverity rep.flags / 5 * 100 := by
        have := hmean.1
        linarith
      have hpos := round2_pos hq
      refine ⟨⟨?_, hflags⟩, Or.inr ?_⟩
      · rw [hriskEq2, hriskEq]
        exact le_of_lt hpos
      · rw [hriskEq2, hriskEq]
        exact hpos
  · rw [if_neg h0] at hriskEq
    refine ⟨⟨?_, hflags⟩, Or.inr ?_⟩
    · rw [hriskEq2, hriskEq]
      exact hrep.1
    · rw [hriskEq2, hriskEq]
      exact lt_of_not_le h0

/-- The workhorse invariant: every report the normalizer returns has risk
at least 0, all severities in [1,5], all pages at least 1, all quote
lengths in [1,600]; and the risk is strictly positive unless the flag
list is empty. -/
theorem vpp_OK {j : Json} {r : ReportOut}
    (h : validate_and_postprocess j = .ok r) :
    RepOK r ∧ (r.flags = [] ∨ 0 < r.overall_risk) := by
  cases j <;> simp only [validate_and_postprocess, reduceCtorEq] at h
  case obj kvs =>
  rcases hs : strictReport (presetObj kvs) with _ | rep <;> rw [hs] at h
  · rcases hl : lenientReport (presetObj kvs) with _ | rep <;> rw [hl] at h
    · cases h
    · cases h
      exact post_OK (lenientReport_ok hl)
  · cases h
    exact post_OK (strictReport_ok hs)

/-! ## The normalizer is the identity on its own outputs -/

theorem clampFlagQuotes_id {f : FlagItem} (h : FlagOK f) :
    clampFlagQuotes f = f := by
  have he : (f.evidence.map fun e =>
      if 600 < e.quote.length then { e with quote := pyTake e.quote 600 }
      else e) = f.evidence :=
    map_id_on _ _ (fun e he => if_neg (not_lt.mpr (h.2 e he).2.2))
  unfold clampFlagQuotes
  rw [he]

theorem clampQuotes_id {r : ReportOut} (h : ∀ f ∈ r.flags, FlagOK f) :
    clampQuotes r = r := by
  have hf : r.flags.map clampFlagQuotes = r.flags :=
    map_id_on _ _ (fun f hf => clampFlagQuotes_id (h f hf))
  unfold clampQuotes
  rw [hf]

theorem deriveRisk_id {r : ReportOut} (h1 : 0 ≤ r.overall_risk)
    (h2 : r.flags = [] ∨ 0 < r.overall_risk) : deriveRisk r = r := by
  unfold deriveRisk
  by_cases h0 : r.overall_risk ≤ 0
  · have hz : r.overall_risk = 0 := le_antisymm h0 h1
    rcases h2 with hemp | hpos
    · rw [if_pos h0, if_pos (by simp [hemp])]
      rw [show (0 : ℚ) = r.overall_risk from hz.symm]
    · exact absurd hpos (by simp [hz])
  · rw [if_neg h0]

theorem pydEvidence_of_item {e : EvidenceItem}
    (h : 1 ≤ e.page ∧ 1 ≤ e.quote.length ∧ e.quote.length ≤ 600) :
    pydEvidence (evidenceToJson e) = some e := by
  have hget : dictGet [("page", Json.num (e.page : ℚ)),
      ("quote", Json.str e.quote)] "page" = some (.num (e.page : ℚ)) := rfl
  have hget2 : dictGet [("page", Json.num (e.page : ℚ)),
      ("quote", Json.str e.quote)] "quote" = some (.str e.quote) := rfl
  show (do
    let page ← dictGet [("page", Json.num (e.page : ℚ)),
      ("quote", Json.str e.quote)] "page" >>= pydInt
    let quote ← dictGet [("page", Json.num (e.page : ℚ)),
      ("quote", Json.str e.quote)] "quote" >>= pydStr
    if 1 ≤ page ∧ 1 ≤ quote.length ∧ quote.length ≤ 600 then
      some (⟨page, quote⟩ : EvidenceItem)
    else none) = some e
  rw [hget, hget2]
  have hint : pydInt (.num (e.page : ℚ)) = some e.page := by
    simp [pydInt, Rat.den_intCast, Rat.num_intCast]
  have hstr : pydStr (.str e.quote) = some e.quote := rfl
  simp [hint, hstr, h.1, h.2.1, h.2.2]

theorem pydFlag_of_item {f : FlagItem} (h : FlagOK f) :
    pydFlag (flagToJson f) = some f := by
  have hevs : pydEvidenceList (some (.arr (f.evidence.map evidenceToJson)))
      = some f.evidence := by
    simp only [pydEvidenceList]
    exact mapO_of_map _ _ _ (fun e he => pydEvidence_of_item (h.2 e he))
  show (do
    let title ← some (Json.str f.title) >>= pydStr
    let sev ← some (Json.num (f.severity : ℚ)) >>= pydInt
    let why ← some (Json.str f.why_it_matters) >>= pydStr
    let reco ← some (Json.str f.recommendation) >>= pydStr
    let evs ← pydEvidenceList (some (.arr (f.evidence.map evidenceToJson)))
    if 1 ≤ sev ∧ sev ≤ 5 then
      some (⟨title, sev, why, reco, evs⟩ : FlagItem)
    else none) = some f
  have hint : pydInt (.num (f.severity : ℚ)) = some f.severity := by
    simp [pydInt, Rat.den_intCast, Rat.num_intCast]
  simp [hint, hevs, pydStr, h.1.1, h.1.2]

theorem strictReport_of_report {r : ReportOut} (h0 : 0 ≤ r.overall_risk)
    (hF : ∀ f ∈ r.flags, FlagOK f) :
    strictReport [("summary", .str r.summary),
      ("overall_risk", .num r.overall_risk),
      ("flags", .arr (r.flags.map flagToJson))] = some r := by
  have hm : pydFlagsList (some (.arr (r.flags.map flagToJson)))
      = some r.flags := by
    simp only [pydFlagsList]
    exact mapO_of_map _ _ _ (fun f hf => pydFlag_of_item (hF f hf))
  have hens : ensure_quotes_len r.flags = r.flags :=
    map_id_on _ _ (fun f hf => clampFlagQuotes_id (hF f hf))
  show (do
    let summary ← some (Json.str r.summary) >>= pydStr
    let risk ← some (Json.num r.overall_risk) >>= pydFloat
    let flags ← pydFlagsList (some (.arr (r.flags.map flagToJson)))
    if 0 ≤ risk then
      some (⟨summary, risk, ensure_quotes_len flags⟩ : ReportOut)
    else none) = some r
  simp [hm, pydStr, pydFloat, h0, hens]

/-- Re-normalizing any output of the normalizer returns it unchanged. -/
theorem vpp_roundtrip {j : Json} {r : ReportOut}
    (h : validate_and_postprocess j = .ok r) :
    validate_and_postprocess (reportToJson r) = .ok r := by
  obtain ⟨⟨h0, hF⟩, hpos⟩ := vpp_OK h
  have hst := strictReport_of_report h0 hF
  have hpre : presetObj [("summary", Json.str r.summary),
      ("overall_risk", Json.num r.overall_risk),
      ("flags", Json.arr (r.flags.map flagToJson))] =
      [("summary", Json.str r.summary),
       ("overall_risk", Json.num r.overall_risk),
       ("flags", Json.arr (r.flags.map flagToJson))] := rfl
  show (match strictReport (presetObj [("summary", Json.str r.summary),
      ("overall_risk", Json.num r.overall_risk),
      ("flags", Json.arr (r.flags.map flagToJson))]) with
    | some rep => Except.ok (clampQuotes (deriveRisk rep))
    | none =>
      match lenientReport (presetObj [("summary", Json.str r.summary),
          ("overall_risk", Json.num r.overall_risk),
          ("flags", Json.arr (r.flags.map flagToJson))]) with
      | some rep => Except.ok (clampQuotes (deriveRisk rep))
      | none => Except.error "coercion failed") = Except.ok r
  rw [hpre, hst]
  show Except.ok (clampQuotes (deriveRisk r)) = Except.ok r
  rw [deriveRisk_id h0 hpos, clampQuotes_id hF]

/-! ## Tracking the overall risk through the pipeline -/

theorem dictGet_cons_pos {p : String × Json} {rest : List (String × Json)}
    {k : String} (h : p.1 = k) : dictGet (p :: rest) k = some p.2 := by
  unfold dictGet
  rw [List.find?_cons_of_pos _ (by simpa using h)]
  rfl

theorem dictGet_cons_neg {p : String × Json} {rest : List (String × Json)}
    {k : String} (h : ¬ p.1 = k) : dictGet (p :: rest) k = dictGet rest k := by
  unfold dictGet
  rw [List.find?_cons_of_neg _ (by simpa using h)]

theorem dictGet_map_replace_self (kvs : List (String × Json)) (k : String)
    (v : Json) (h : dictHas kvs k) :
    dictGet (kvs.map fun p => if p.1 = k then (k, v) else p) k = some v := by
  induction kvs with
  | nil => simp [dictHas] at h
  | cons p rest ih =>
    rw [List.map_cons]
    by_cases hp : p.1 = k
    · rw [if_pos hp, dictGet_cons_pos rfl]
    · rw [if_neg hp, dictGet_cons_neg hp]
      apply ih
      unfold dictHas at h ⊢
      rwa [List.find?_cons_of_neg _ (by simpa using hp)] at h

theorem dictGet_map_replace_ne (kvs : List (String × Json)) (k k2 : String)
    (v : Json) (hne : k ≠ k2) :
    dictGet (kvs.map fun p => if p.1 = k then (k, v) else p) k2 =
      dictGet kvs k2 := by
  induction kvs with
  | nil => rfl
  | cons p rest ih =>
    rw [List.map_cons]
    by_cases hp : p.1 = k
    · rw [if_pos hp, dictGet_cons_neg (by simpa using hne),
        dictGet_cons_neg (by rw [hp]; exact hne)]
      exact ih
    · by_cases hq : p.1 = k2
      · rw [if_neg hp, dictGet_cons_pos hq, dictGet_cons_pos hq]
      · rw [if_neg hp, dictGet_cons_neg hq, dictGet_cons_neg hq]
        exact ih

theorem find?_of_not_has {kvs : List (String × Json)} {k : String}
    (h : ¬ dictHas kvs k) : kvs.find? (fun p => p.1 = k) = none := by
  unfold dictHas at h
  rcases hf : kvs.find? (fun p => p.1 = k) with _ | p
  · exact hf
  · rw [hf] at h
    simp at h

theorem dictGet_of_not_has {kvs : List (String × Json)} {k : String}
    (h : ¬ dictHas kvs k) : dictGet kvs k = none := by
  unfold dictGet
  rw [find?_of_not_has h]
  rfl

theorem dictGet_dictSet_self (kvs : List (String × Json)) (k : String)
    (v : Json) : dictGet (dictSet kvs k v) k = some v := by
  unfold dictSet
  split_ifs with h
  · exact dictGet_map_replace_self kvs k v h
  · unfold dictGet
    rw [List.find?_append, find?_of_not_has h]
    rw [List.find?_cons_of_pos _ (by simp)]
    rfl

theorem dictGet_dictSet_ne (kvs : List (String × Json)) (k k2 : String)
    (v : Json) (hne : k ≠ k2) :
    dictGet (dictSet kvs k v) k2 = dictGet kvs k2 := by
  unfold dictSet
  split_ifs with h
  · exact dictGet_map_replace_ne kvs k k2 v hne
  · unfold dictGet
    rw [List.find?_append]
    rw [show List.find? (fun p => p.1 = k2) [(k, v)] = none by
      rw [List.find?_cons_of_neg _ (by simpa using hne)]
      rfl]
    rw [Option.or_none]

/-- What `presetObj` stores under `overall_risk`. -/
theorem presetObj_risk (kvs : List (String × Json)) :
    dictGet (presetObj kvs) "overall_risk" =
      match dictGet kvs "overall_risk" with
      | none => some (.num 0)
      | some .null => some (.num 0)
      | some (.str s) => if s = "" then some (.num 0) else some (.str s)
      | some v => some v := by
  unfold presetObj
  have hflags : dictGet (presetFlags kvs) "overall_risk" =
      dictGet kvs "overall_risk" := by
    unfold presetFlags
    split_ifs with h
    · rfl
    · exact dictGet_dictSet_ne kvs "flags" "overall_risk" _ (by decide)
  rw [hflags]
  rcases hr : dictGet kvs "overall_risk" with _ | v
  · exact dictGet_dictSet_self _ _ _
  · rcases v with _ | b | q | s | items | fields
    · exact dictGet_dictSet_self _ _ _
    · show dictGet (presetFlags kvs) "overall_risk" = some (.bool b)
      rw [hflags, hr]
    · show dictGet (presetFlags kvs) "overall_risk" = some (.num q)
      rw [hflags, hr]
    · show dictGet
        (if s = "" then dictSet (presetFlags kvs) "overall_risk" (.num 0)
         else presetFlags kvs) "overall_risk" =
        if s = "" then some (.num 0) else some (.str s)
      split_ifs with hs
      · exact dictGet_dictSet_self _ _ _
      · rw [hflags, hr]
    · show dictGet (presetFlags kvs) "overall_risk" = some (.arr items)
      rw [hflags, hr]
    · show dictGet (presetFlags kvs) "overall_risk" = some (.obj fields)
      rw [hflags, hr]

/-- The risk the strict pass stores is the coerced stored value. -/
theorem strictReport_risk {kvs : List (String × Json)} {rep : ReportOut}
    (h : strictReport kvs = some rep) :
    ∃ v, dictGet kvs "overall_risk" = some v ∧
      pydFloat v = some rep.overall_risk := by
  unfold strictReport at h
  simp only [Option.bind_eq_bind, Option.bind_eq_some] at h
  rcases h with ⟨summary, hsum, risk, ⟨v, hv, hvf⟩, flags, hflags, hif⟩
  refine ⟨v, hv, ?_⟩
  by_cases hc : 0 ≤ risk
  · rw [if_pos hc] at hif
    cases hif
    exact hvf
  · rw [if_neg hc] at hif
    cases hif

/-- The risk the lenient pass stores: 0 when the stored value is falsy or
missing, otherwise its `float` coercion. -/
theorem lenientReport_risk {kvs : List (String × Json)} {rep : ReportOut}
    (h : lenientReport kvs = some rep) :
    rep.overall_risk = 0 ∨
    ∃ v, dictGet kvs "overall_risk" = some v ∧ pyTruthy v = true ∧
      pyFloat v = some rep.overall_risk := by
  unfold lenientReport at h
  simp only [Option.bind_eq_bind, Option.bind_eq_some] at h
  rcases h with ⟨flagsJson, hiter, safe_flags, hmap, risk, hrisk, hif⟩
  have hrep : rep.overall_risk = risk := by
    by_cases hc : 0 ≤ risk ∧
        (safe_flags.all fun f => f.evidence.all fun e => 1 ≤ e.quote.length)
    · rw [if_pos hc] at hif
      cases hif
      rfl
    · rw [if_neg hc] at hif
      cases hif
  subst hrep
  by_cases ht : pyTruthy (getD kvs "overall_risk" (.num 0))
  · rw [if_pos ht] at hrisk
    rcases hg : dictGet kvs "overall_risk" with _ | v
    · rw [show getD kvs "overall_risk" (.num 0) = .num 0 by
        simp [getD, hg]] at ht
      simp [pyTruthy] at ht
    · refine Or.inr ⟨v, rfl, ?_, ?_⟩
      · rwa [show getD kvs "overall_risk" (.num 0) = v by
          simp [getD, hg]] at ht
      · rwa [show getD kvs "overall_risk" (.num 0) = v by
          simp [getD, hg]] at hrisk
  · rw [if_neg ht] at hrisk
    left
    have h0 : some (0 : ℚ) = some rep.overall_risk := hrisk
    exact (Option.some.inj h0).symm

/-- Strict coercion is a special case of `float`. -/
theorem pydFloat_pyFloat {v : Json} {q : ℚ} (h : pydFloat v = some q) :
    pyFloat v = some q := by
  cases v <;> simpa [pydFloat, pyFloat] using h

/-- A successful normalization is one of the two passes followed by the
post-processing. -/
theorem vpp_ok_cases {kvs : List (String × Json)} {r : ReportOut}
    (h : validate_and_postprocess (.obj kvs) = .ok r) :
    ∃ rep, (strictReport (presetObj kvs) = some rep ∨
        (strictReport (presetObj kvs) = none ∧
         lenientReport (presetObj kvs) = some rep)) ∧
      r = clampQuotes (deriveRisk rep) := by
  simp only [validate_and_postprocess] at h
  rcases hs : strictReport (presetObj kvs) with _ | rep <;> rw [hs] at h
  · rcases hl : lenientReport (presetObj kvs) with _ | rep <;> rw [hl] at h
    · cases h
    · cases h
      exact ⟨rep, Or.inr ⟨rfl, rfl⟩, rfl⟩
  · cases h
    exact ⟨rep, Or.inl rfl, rfl⟩

/-- After derivation and clamping, the risk is either at most 100 (the
derived cases) or exactly the risk of the validated report. -/
theorem derive_clamp_risk_cases {rep : ReportOut} (hOK : RepOK rep) :
    (clampQuotes (deriveRisk rep)).overall_risk ≤ 100 ∨
    (clampQuotes (deriveRisk rep)).overall_risk = rep.overall_risk := by
  rw [clampQuotes_risk, deriveRisk_risk_eq]
  split_ifs with h0 hemp
  · left
    norm_num
  · left
    have hne : rep.flags ≠ [] := fun hcon => hemp (by simp [hcon])
    have hmean := meanSeverity_bounds hne (fun f hf => (hOK.2 f hf).1)
    apply round2_le_100
    have := hmean.2
    linarith
  · right
    rfl

/-- When the strict pass accepted a nonzero risk, that exact number was
stored in the raw object. -/
theorem risk_source_strict {kvs : List (String × Json)} {rep : ReportOut}
    (h : strictReport (presetObj kvs) = some rep)
    (hne : rep.overall_risk ≠ 0) :
    ∃ v, dictGet kvs "overall_risk" = some v ∧
      pyFloat v = some rep.overall_risk := by
  obtain ⟨v1, hv1, hvf⟩ := strictReport_risk h
  rw [presetObj_risk] at hv1
  rcases hg : dictGet kvs "overall_risk" with _ | v <;> rw [hg] at hv1
  · have hz : some (Json.num 0) = some v1 := hv1
    cases Option.some.inj hz
    have : some (0 : ℚ) = some rep.overall_risk := hvf
    exact absurd (Option.some.inj this).symm hne
  · rcases v with _ | b | q | s | items | fields
    · have hz : some (Json.num 0) = some v1 := hv1
      cases Option.some.inj hz
      have : some (0 : ℚ) = some rep.overall_risk := hvf
      exact absurd (Option.some.inj this).symm hne
    · have hz : some (Json.bool b) = some v1 := hv1
      cases Option.some.inj hz
      cases hvf
    · have hz : some (Json.num q) = some v1 := hv1
      cases Option.some.inj hz
      exact ⟨.num q, rfl, pydFloat_pyFloat hvf⟩
    · have hv1b : (if s = "" then some (Json.num 0)
          else some (Json.str s)) = some v1 := hv1
      by_cases hs : s = ""
      · rw [if_pos hs] at hv1b
        cases Option.some.inj hv1b
        have : some (0 : ℚ) = some rep.overall_risk := hvf
        exact absurd (Option.some.inj this).symm hne
      · rw [if_neg hs] at hv1b
        cases Option.some.inj hv1b
        exact ⟨.str s, rfl, pydFloat_pyFloat hvf⟩
    · have hz : some (Json.arr items) = some v1 := hv1
      cases Option.some.inj hz
      cases hvf
    · have hz : some (Json.obj fields) = some v1 := hv1
      cases Option.some.inj hz
      cases hvf

/-- Same fact for the lenient pass (booleans also coerce there). -/
theorem risk_source_lenient {kvs : List (String × Json)} {rep : ReportOut}
    (h : lenientReport (presetObj kvs) = some rep)
    (hne : rep.overall_risk ≠ 0) :
    ∃ v, dictGet kvs "overall_risk" = some v ∧
      pyFloat v = some rep.overall_risk := by
  rcases lenientReport_risk h with hz | ⟨v1, hv1, htr, hvf⟩
  · exact absurd hz hne
  · rw [presetObj_risk] at hv1
    rcases hg : dictGet kvs "overall_risk" with _ | v <;> rw [hg] at hv1
    · have hz : some (Json.num 0) = some v1 := hv1
      cases Option.some.inj hz
      simp [pyTruthy] at htr
    · rcases v with _ | b | q | s | items | fields
      · have hz : some (Json.num 0) = some v1 := hv1
        cases Option.some.inj hz
        simp [pyTruthy] at htr
      · have hz : some (Json.bool b) = some v1 := hv1
        cases Option.some.inj hz
        exact ⟨.bool b, rfl, hvf⟩
      · have hz : some (Json.num q) = some v1 := hv1
        cases Option.some.inj hz
        exact ⟨.num q, rfl, hvf⟩
      · have hv1b : (if s = "" then some (Json.num 0)
            else some (Json.str s)) = some v1 := hv1
        by_cases hs : s = ""
        · rw [if_pos hs] at hv1b
          cases Option.some.inj hv1b
          simp [pyTruthy] at htr
        · rw [if_neg hs] at hv1b
          cases Option.some.inj hv1b
          exact ⟨.str s, rfl, hvf⟩
      · have hz : some (Json.arr items) = some v1 := hv1
        cases Option.some.inj hz
        exact ⟨.arr items, rfl, hvf⟩
      · have hz : some (Json.obj fields) = some v1 := hv1
        cases Option.some.inj hz
        exact ⟨.obj fields, rfl, hvf⟩

/-- Under a missing, blank or zero stored risk, both passes validate the
provisional risk 0. -/
theorem validated_risk_zero {kvs : List (String × Json)} {rep : ReportOut}
    (hm : dictGet kvs "overall_risk" = none ∨
      dictGet kvs "overall_risk" = some .null ∨
      dictGet kvs "overall_risk" = some (.str "") ∨
      dictGet kvs "overall_risk" = some (.num 0))
    (h : strictReport (presetObj kvs) = some rep ∨
      lenientReport (presetObj kvs) = some rep) :
    rep.overall_risk = 0 := by
  have hpz : dictGet (presetObj kvs) "overall_risk" = some (.num 0) := by
    rw [presetObj_risk]
    rcases hm with hm | hm | hm | hm <;> rw [hm]
    rfl
  rcases h with h | h
  · obtain ⟨v1, hv1, hvf⟩ := strictReport_risk h
    rw [hpz] at hv1
    cases Option.some.inj hv1
    have : some (0 : ℚ) = some rep.overall_risk := hvf
    exact (Option.some.inj this).symm
  · rcases lenientReport_risk h with hz | ⟨v1, hv1, htr, hvf⟩
    · exact hz
    · rw [hpz] at hv1
      cases Option.some.inj hv1
      simp [pyTruthy] at htr

/-- A successful normalization implies the input was a JSON object. -/
theorem vpp_ok_obj {j : Json} {r : ReportOut}
    (h : validate_and_postprocess j = .ok r) : ∃ kvs, j = .obj kvs := by
  cases j <;> simp only [validate_and_postprocess, reduceCtorEq] at h
  exact ⟨_, rfl⟩

/-! ## The spec-worded lenient pass equals the code path -/

theorem specEvidence_eq (j : Json) : specEvidence j = lenientEvidence j := by
  cases j <;> try rfl
  case obj kvs =>
  show (specPage kvs).map (fun p => (⟨p, specQuote kvs⟩ : EvidenceItem)) =
    (pyInt (getD kvs "page" (.num 1))).bind fun page =>
      some ⟨max 1 page, pyTake (pyStr (getD kvs "quote" (.str ""))) 600⟩
  have hq : specQuote kvs = pyTake (pyStr (getD kvs "quote" (.str ""))) 600 := by
    unfold specQuote getD
    rcases dictGet kvs "quote" with _ | w <;> rfl
  rw [hq]
  rcases hp : dictGet kvs "page" with _ | v
  · have h1 : specPage kvs = some 1 := by
      unfold specPage
      rw [hp]
    have h2 : getD kvs "page" (.num 1) = .num 1 := by
      unfold getD
      rw [hp]
    rw [h1, h2]
    rfl
  · have h1 : specPage kvs = (pyInt v).map fun n => max 1 n := by
      unfold specPage
      rw [hp]
    have h2 : getD kvs "page" (.num 1) = v := by
      unfold getD
      rw [hp]
    rw [h1, h2]
    rcases hi : pyInt v with _ | n <;> rfl

theorem specFlag_eq (j : Json) : specFlag j = lenientFlag j := by
  cases j <;> try rfl
  case obj kvs =>
  have hE : specEvidence = lenientEvidence := funext specEvidence_eq
  have hsev : specSeverity kvs = (pyFloat (getD kvs "severity" (.num 3))).map
      (fun q => max 1 (min 5 (truncQ q))) := by
    unfold specSeverity getD
    rcases dictGet kvs "severity" with _ | v
    · show some 3 = (pyFloat (.num 3)).map fun q => max 1 (min 5 (truncQ q))
      decide
    · rfl
  have ht : specText kvs "title" "Risk" =
      pyStr (getD kvs "title" (.str "Risk")) := by
    unfold specText getD
    rcases dictGet kvs "title" with _ | v <;> rfl
  have hw : specText kvs "why_it_matters" "" =
      pyStr (getD kvs "why_it_matters" (.str "")) := by
    unfold specText getD
    rcases dictGet kvs "why_it_matters" with _ | v <;> rfl
  have hr : specText kvs "recommendation" "" =
      pyStr (getD kvs "recommendation" (.str "")) := by
    unfold specText getD
    rcases dictGet kvs "recommendation" with _ | v <;> rfl
  show (do
    let sev ← specSeverity kvs
    let evs ← iterList (dictGet kvs "evidence") >>= mapO specEvidence
    some (⟨specText kvs "title" "Risk", sev,
      specText kvs "why_it_matters" "",
      specText kvs "recommendation" "", evs⟩ : FlagItem)) =
    (do
    let sevQ ← pyFloat (getD kvs "severity" (.num 3))
    let sev := max 1 (min 5 (truncQ sevQ))
    let evs ← iterList (dictGet kvs "evidence") >>= mapO lenientEvidence
    some (⟨pyStr (getD kvs "title" (.str "Risk")), sev,
      pyStr (getD kvs "why_it_matters" (.str "")),
      pyStr (getD kvs "recommendation" (.str "")), evs⟩ : FlagItem))
  rw [hE, hsev, ht, hw, hr]
  rcases hf : pyFloat (getD kvs "severity" (.num 3)) with _ | q
  · rfl
  · rcases hi : iterList (dictGet kvs "evidence") with _ | l
    · rfl
    · rcases hm : mapO lenientEvidence l with _ | evs <;> rfl

theorem specLenientReport_eq (kvs : List (String × Json)) :
    specLenientReport kvs = lenientReport kvs := by
  have hF : specFlag = lenientFlag := funext specFlag_eq
  have hs : specText kvs "summary" "" =
      pyStr (getD kvs "summary" (.str "")) := by
    unfold specText getD
    rcases dictGet kvs "summary" with _ | v <;> rfl
  unfold specLenientReport lenientReport
  rw [hF, hs]

/-! ## A strictly valid object is left unchanged by the preset step -/

theorem presetObj_of_strict {kvs : List (String × Json)} {rep : ReportOut}
    (h : strictReport kvs = some rep) : presetObj kvs = kvs := by
  unfold strictReport at h
  simp only [Option.bind_eq_bind, Option.bind_eq_some] at h
  rcases h with ⟨summary, hsum, risk, ⟨v, hv, hvf⟩, flags, hflags, hif⟩
  have hhas : dictHas kvs "flags" := by
    rcases hfv : dictGet kvs "flags" with _ | fv
    · rw [hfv] at hflags
      simp [pydFlagsList] at hflags
    · unfold dictGet at hfv
      unfold dictHas
      rcases hff : kvs.find? (fun p => p.1 = "flags") with _ | p
      · rw [hff] at hfv
        cases hfv
      · rw [hff]
        rfl
  have hpf : presetFlags kvs = kvs := by
    unfold presetFlags
    rw [if_pos hhas]
  unfold presetObj
  rw [hpf, hv]
  rcases v with _ | b | q | s | items | fields
  · simp [pydFloat] at hvf
  · simp [pydFloat] at hvf
  · rfl
  · by_cases hs : s = ""
    · subst hs
      have hnone : pydFloat (.str "") = none := rfl
      rw [hnone] at hvf
      cases hvf
    · show (if s = "" then dictSet kvs "overall_risk" (.num 0) else kvs) = kvs
      rw [if_neg hs]
  · simp [pydFloat] at hvf
  · simp [pydFloat] at hvf

/-- The final re-normalization never raises `NoContent`. -/
theorem finishMerge_ne_noContent (j : Json) :
    finishMerge j ≠ .error .noContent := by
  unfold finishMerge
  split <;> simp

/-- `analyzeSel` never raises `NoContent`. -/
theorem analyzeSel_ne_noContent (f : String → Except String ReportOut)
    (sel : List String) : analyzeSel f sel ≠ .error .noContent := by
  unfold analyzeSel
  split
  · simp
  · exact finishMerge_ne_noContent _

/-! ## The claims -/

/-- C1: For every raw model output, every report the normalization
pipeline produces has each flag severity an integer in [1,5] and each
evidence quote of length at most 600 characters, whatever values the raw
object carried. -/
theorem claim1_severity_and_quote_invariant (j : Json) (r : ReportOut)
    (h : validate_and_postprocess j = .ok r) :
    (∀ f ∈ r.flags, 1 ≤ f.severity ∧ f.severity ≤ 5) ∧
    (∀ f ∈ r.flags, ∀ e ∈ f.evidence, e.quote.length ≤ 600) := by
  obtain ⟨⟨_, hF⟩, _⟩ := vpp_OK h
  exact ⟨fun f hf => (hF f hf).1, fun f hf e he => ((hF f hf).2 e he).2.2⟩

/-- Witness for C1: the invariant at a concrete raw object whose
severities 0 and 6 are out of range. -/
theorem claim1_severity_and_quote_invariant_witness :
    (∀ f ∈ c1rep.flags, 1 ≤ f.severity ∧ f.severity ≤ 5) ∧
    (∀ f ∈ c1rep.flags, ∀ e ∈ f.evidence, e.quote.length ≤ 600) :=
  claim1_severity_and_quote_invariant c1obj c1rep (by rfl)

/-- C2 counterexample: a model-supplied overall risk of 500 passes
through the pipeline unchanged, so `overall_risk ≤ 100` fails. -/
theorem claim2_counterexample :
    validate_and_postprocess (.obj c2kvs) = .ok c2rep ∧
    ¬ c2rep.overall_risk ≤ 100 :=
  ⟨rfl, by norm_num [c2rep]⟩

/-- C2 (amended): every produced report has `overall_risk ≥ 0`, and a
value above 100 can only be the exact number stored in the raw object
(the upper bound is not enforced by the code). -/
theorem claim2_risk_lower_bound_and_passthrough (j : Json) (r : ReportOut)
    (h : validate_and_postprocess j = .ok r) :
    0 ≤ r.overall_risk ∧
    (100 < r.overall_risk → ∃ kvs v, j = .obj kvs ∧
      dictGet kvs "overall_risk" = some v ∧
      pyFloat v = some r.overall_risk) := by
  refine ⟨(vpp_OK h).1.1, ?_⟩
  intro hgt
  obtain ⟨kvs, rfl⟩ := vpp_ok_obj h
  obtain ⟨rep, hpass, hr⟩ := vpp_ok_cases h
  have hOK : RepOK rep := by
    rcases hpass with hs | ⟨_, hl⟩
    · exact strictReport_ok hs
    · exact lenientReport_ok hl
  rcases derive_clamp_risk_cases hOK with hle | heq
  · rw [hr] at hgt
    exact absurd hgt (not_lt.mpr hle)
  · have hrisk_eq : r.overall_risk = rep.overall_risk := by
      rw [hr]
      exact heq
    have hne : rep.overall_risk ≠ 0 := by
      intro hz
      rw [hrisk_eq, hz] at hgt
      norm_num at hgt
    rcases hpass with hs | ⟨_, hl⟩
    · obtain ⟨v, hv, hvf⟩ := risk_source_strict hs hne
      exact ⟨kvs, v, rfl, hv, by rw [hrisk_eq]; exact hvf⟩
    · obtain ⟨v, hv, hvf⟩ := risk_source_lenient hl hne
      exact ⟨kvs, v, rfl, hv, by rw [hrisk_eq]; exact hvf⟩

/-- Witness for C2 (amended): at the risk-500 object the lower bound
holds and the stored value is the source of the oversized risk. -/
theorem claim2_risk_lower_bound_and_passthrough_witness :
    0 ≤ c2rep.overall_risk ∧
    (100 < c2rep.overall_risk → ∃ kvs v, Json.obj c2kvs = .obj kvs ∧
      dictGet kvs "overall_risk" = some v ∧
      pyFloat v = some c2rep.overall_risk) :=
  claim2_risk_lower_bound_and_passthrough (.obj c2kvs) c2rep (by rfl)

/-- C4: when the stored overall risk is missing, blank (`None` or `""`)
or zero, the produced risk is `round2(mean(severity)/5*100)` for a
non-empty flag list and 0 for an empty one. -/
theorem claim4_risk_derivation (kvs : List (String × Json)) (r : ReportOut)
    (hm : dictGet kvs "overall_risk" = none ∨
      dictGet kvs "overall_risk" = some .null ∨
      dictGet kvs "overall_risk" = some (.str "") ∨
      dictGet kvs "overall_risk" = some (.num 0))
    (h : validate_and_postprocess (.obj kvs) = .ok r) :
    (r.flags = [] → r.overall_risk = 0) ∧
    (r.flags ≠ [] →
      r.overall_risk = round2 (meanSeverity r.flags / 5 * 100)) := by
  obtain ⟨rep, hpass, hr⟩ := vpp_ok_cases h
  have hz : rep.overall_risk = 0 := by
    apply validated_risk_zero hm
    rcases hpass with hs | ⟨_, hl⟩
    · exact Or.inl hs
    · exact Or.inr hl
  have hflagsEq : r.flags = rep.flags.map clampFlagQuotes := by
    rw [hr, clampQuotes_flags, deriveRisk_flags]
  have hriskEq : r.overall_risk = (deriveRisk rep).overall_risk := by
    rw [hr, clampQuotes_risk]
  rw [deriveRisk_risk_eq, if_pos (le_of_eq hz)] at hriskEq
  constructor
  · intro hempty
    have hrepempty : rep.flags = [] := by
      rw [hflagsEq] at hempty
      exact List.map_eq_nil.mp hempty
    rw [hriskEq, if_pos (by simp [hrepempty])]
  · intro hne
    have hrepne : ¬ rep.flags.isEmpty := by
      intro hc
      rw [hflagsEq, List.isEmpty_iff.mp hc] at hne
      simp at hne
    rw [hriskEq, if_neg hrepne, hflagsEq, meanSeverity_clamp]

/-- Witness for C4: severities [3,4,5] with no stored risk derive exactly
80. -/
theorem claim4_risk_derivation_witness :
    c4rep.overall_risk = round2 (meanSeverity c4rep.flags / 5 * 100) ∧
    c4rep.overall_risk = 80 :=
  ⟨(claim4_risk_derivation c4kvs c4rep (Or.inl rfl) (by rfl)).2 (by decide),
   rfl⟩

/-- C10: a successfully normalized report that carries at least one flag
always has a strictly positive overall risk. -/
theorem claim10_flags_imply_positive_risk (j : Json) (r : ReportOut)
    (h : validate_and_postprocess j = .ok r) (hne : r.flags ≠ []) :
    0 < r.overall_risk :=
  (vpp_OK h).2.resolve_left hne

/-- Witness for C10: a report with one flag and stored risk 0 comes out
with risk 40 > 0. -/
theorem claim10_flags_imply_positive_risk_witness :
    0 < c10rep.overall_risk :=
  claim10_flags_imply_positive_risk c10obj c10rep (by rfl) (by decide)

/-- C3 counterexample: at severity 4.7 strict validation fails and the
lenient pass truncates toward zero, yielding 4, while rounding as the
claim states it would yield 5 (and the claim is therefore false at this
input). -/
theorem claim3_counterexample :
    strictReport (presetObj c3kvs) = none ∧
    validate_and_postprocess (.obj c3kvs) = .ok c3rep ∧
    c3rep.flags.map (·.severity) = [4] ∧
    max 1 (min 5 (pyRound (mkRat 47 10))) = 5 :=
  ⟨rfl, rfl, rfl, by decide⟩

/-- C3 (amended): whenever strict validation fails and normalization
still succeeds, the result is exactly the lenient per-field coercion the
amended spec describes — severity parsed as a number, truncated toward
zero and clamped to [1,5] (default 3 when missing; non-numeric values
make the pass fail), page as an integer with minimum 1 and default 1,
quote stringified and truncated to 600 characters, missing text fields
defaulting to the empty string and the title to "Risk" — followed by the
risk derivation and the final quote clamp. -/
theorem claim3_lenient_coercion (kvs : List (String × Json)) (r : ReportOut)
    (hstrict : strictReport (presetObj kvs) = none)
    (h : validate_and_postprocess (.obj kvs) = .ok r) :
    ∃ rep, specLenientReport (presetObj kvs) = some rep ∧
      r = clampQuotes (deriveRisk rep) := by
  obtain ⟨rep, hpass, hr⟩ := vpp_ok_cases h
  rcases hpass with hs | ⟨_, hl⟩
  · rw [hstrict] at hs
    cases hs
  · exact ⟨rep, by rw [specLenientReport_eq]; exact hl, hr⟩

/-- Witness for C3 (amended): the severity-4.7 object goes through the
lenient pass. -/
theorem claim3_lenient_coercion_witness :
    ∃ rep, specLenientReport (presetObj c3kvs) = some rep ∧
      c3rep = clampQuotes (deriveRisk rep) :=
  claim3_lenient_coercion c3kvs c3rep rfl (by rfl)

/-- C5 counterexample: with the default retry counter 2 and a model that
always answers text with no JSON in it, the invoker makes 6 API calls,
not at most 3 as claimed (each of the 3 outer attempts makes a primary
call and a stricter retry call). -/
theorem claim5_counterexample :
    (call_groq_json (fun _ => "Sorry, I cannot help with that.") 2).2 = 6 ∧
    ¬ (call_groq_json (fun _ => "Sorry, I cannot help with that.") 2).2 ≤ 3 :=
  ⟨rfl, by decide⟩

/-- C5 (amended): the invoker makes at most `2*(retry+1)` API calls (6
under the default retry counter 2); a model that always answers text
with no JSON structure triggers a stricter-prompt retry inside every
outer attempt, so the run makes exactly 6 calls and ends with the
terminal error carrying the last underlying cause. -/
theorem claim5_retry_budget :
    (∀ (respond : ℕ → String) (retry : ℕ),
      (call_groq_json respond retry).2 ≤ 2 * (retry + 1)) ∧
    call_groq_json (fun _ => "Sorry, I cannot help with that.") 2 =
      (.error "Groq parsing failed: unparseable response", 6) := by
  constructor
  · intro respond retry
    have aux : ∀ a k e, (callGroqLoop respond a k e).2 ≤ k + 2 * a := by
      intro a
      induction a with
      | zero =>
        intro k e
        simp [callGroqLoop]
      | succ n ih =>
        intro k e
        show (callGroqLoop respond (n + 1) k e).2 ≤ k + 2 * (n + 1)
        rcases h1 : tryOnce (respond k) with e1 | r1
        · rcases h2 : tryOnce (respond (k + 1)) with e2 | r2
          · have : callGroqLoop respond (n + 1) k e =
                callGroqLoop respond n (k + 2) e2 := by
              conv_lhs => unfold callGroqLoop
              rw [h1, h2]
            rw [this]
            have := ih (k + 2) e2
            omega
          · have : callGroqLoop respond (n + 1) k e = (.ok r2, k + 2) := by
              unfold callGroqLoop
              rw [h1, h2]
            rw [this]
            omega
        · have : callGroqLoop respond (n + 1) k e = (.ok r1, k + 1) := by
            unfold callGroqLoop
            rw [h1]
          rw [this]
          omega
    have := aux (retry + 1) 0 ""
    unfold call_groq_json
    omega
  · rfl

/-- C6: a fenced code block with a trailing comma before the closing
brace parses to the intended object, and the only way `force_parse_json`
fails is that both the strict parse of the extracted candidate and the
parse of its trailing-comma repair fail. -/
theorem claim6_repair_tolerance :
    force_parse_json c6str = .ok c6json ∧
    ∀ s, (∃ e, force_parse_json s = .error e) ↔
      (Json.parse (jsonCandidate s) = none ∧
       Json.parse (repairCommas (jsonCandidate s)) = none) := by
  constructor
  · rfl
  · intro s
    unfold force_parse_json
    rcases h1 : Json.parse (jsonCandidate s) with _ | v
    · rcases h2 : Json.parse (repairCommas (jsonCandidate s)) with _ | v
      · simp
      · simp
    · simp

/-- C7 (the guard the spec requires is absent): with `max_chars = 2` and
`overlap = 2` on the text "abcdef" the window start never advances past
0, so the chunking loop runs forever — no amount of fuel makes it
return. -/
theorem claim7_chunker_diverges :
    ∀ fuel, chunk_text "abcdef" 2 2 fuel = none := by
  have aux : ∀ fl (acc : List String),
      chunkLoop "abcdef".toList 2 2 fl 0 acc = none := by
    intro fl
    induction fl with
    | zero => intro acc; rfl
    | succ n ih => intro acc; exact ih _
  intro fuel
  exact aux fuel []

/-- C8: normalization is idempotent — on an already-valid report object,
applying the normalizer twice equals applying it once. -/
theorem claim8_normalize_idempotent (x : Json) (h : ValidReportJson x) :
    (normalizeDict x).bind normalizeDict = normalizeDict x := by
  obtain ⟨kvs, rfl, hsome⟩ := h
  obtain ⟨rep, hrep⟩ := Option.isSome_iff_exists.mp hsome
  have hpre := presetObj_of_strict hrep
  have hvpp : validate_and_postprocess (.obj kvs) =
      .ok (clampQuotes (deriveRisk rep)) := by
    show (match strictReport (presetObj kvs) with
      | some report => Except.ok (clampQuotes (deriveRisk report))
      | none =>
        match lenientReport (presetObj kvs) with
        | some report => Except.ok (clampQuotes (deriveRisk report))
        | none => Except.error "coercion failed") =
      Except.ok (clampQuotes (deriveRisk rep))
    rw [hpre, hrep]
  have hround := vpp_roundtrip hvpp
  unfold normalizeDict
  rw [hvpp]
  show normalizeDict (reportToJson (clampQuotes (deriveRisk rep))) =
    Except.ok (reportToJson (clampQuotes (deriveRisk rep)))
  unfold normalizeDict
  rw [hround]
  rfl

/-- Witness for C8 at a concrete valid report object. -/
theorem claim8_normalize_idempotent_witness :
    (normalizeDict (.obj c8kvs)).bind normalizeDict =
      normalizeDict (.obj c8kvs) :=
  claim8_normalize_idempotent (.obj c8kvs) ⟨c8kvs, rfl, by rfl⟩

/-- C9: the analyzer raises `NoContent` exactly on an empty chunk list,
and its result depends only on the first three chunks. -/
theorem claim9_first_three_chunks :
    (∀ (f : String → Except String ReportOut) (chunks : List String),
      analyze_chunks f chunks = .error .noContent ↔ chunks = []) ∧
    (∀ (f : String → Except String ReportOut) (c1 c2 : List String),
      c1.take 3 = c2.take 3 → analyze_chunks f c1 = analyze_chunks f c2) := by
  have hsel : ∀ (l : List String), l.take (min 3 l.length) = l.take 3 := by
    intro l
    rcases le_total 3 l.length with h | h
    · rw [min_eq_left h]
    · rw [min_eq_right h, List.take_length, List.take_of_length_le h]
  constructor
  · intro f chunks
    unfold analyze_chunks
    split_ifs with h
    · simp [List.isEmpty_iff.mp h]
    · have hne : chunks ≠ [] := fun hc => h (by simp [hc])
      constructor
      · intro hcontra
        exact absurd hcontra (analyzeSel_ne_noContent f _)
      · intro hc
        exact absurd hc hne
  · intro f c1 c2 htake
    unfold analyze_chunks
    have h1 : c1.take (min 3 c1.length) = c2.take (min 3 c2.length) := by
      rw [hsel, hsel, htake]
    have hemp : c1.isEmpty = c2.isEmpty := by
      rcases c1 with _ | ⟨a, t⟩ <;> rcases c2 with _ | ⟨b, t2⟩
      · rfl
      · simp at htake
      · simp at htake
      · rfl
    rw [hemp, h1]

/-- Witness for C9: two chunk lists agreeing on their first three
elements yield the same analysis. -/
theorem claim9_first_three_chunks_witness :
    analyze_chunks
      (fun _ => .ok { summary := "s", overall_risk := 50, flags := [] })
      ["a", "b", "c", "d"] =
    analyze_chunks
      (fun _ => .ok { summary := "s", overall_risk := 50, flags := [] })
      ["a", "b", "c"] :=
  claim9_first_three_chunks.2 _ _ _ (by rfl)

end Copilot
